import Mathlib

/-!
Shallow embedding of the Booking-Service repository
(services/booking_service.py, services/seat_service.py,
services/payment_service.py, and the SQLAlchemy models in models/).

Modelling conventions:
* Each SQLAlchemy table is a list of records; the shared database session is a
  pair of database snapshots (`committed`, `draft`) plus a `trace` of outbound
  side effects (HTTP calls to the theatre service, refund attempts).
  `db.session.commit()` copies `draft` into `committed`;
  `db.session.rollback()` copies `committed` back into `draft`.
  Mutating a fetched ORM object mutates the `draft`; `flush` is a no-op in the
  model because drafts are always immediately visible to later queries.
* `datetime.utcnow()` is a `now : Nat` parameter (minutes since some epoch);
  `timedelta(minutes=m)` is `+ m`.
* Outcomes of HTTP requests to the theatre service are oracle parameters of
  type `RemoteResult` (`status code`, or `exn` for a raised RequestException).
* Audit columns (`created_at`, `updated_at`, `created_by`, `booking_time`) are
  written but never read by any of the modelled control flow, so they are
  omitted from the record types.
* Error-message strings are represented by the constructors of `Err`; each
  constructor is documented with the source string it stands for.
-/

namespace BookingSvc

/-- `BookedSeat.status`: the string column with values
`'on_hold' | 'booked' | 'released'`. -/
inductive SeatStatus where
  | on_hold
  | booked
  | released
deriving DecidableEq, Repr

/-- `Booking.status`: `'pending' | 'confirmed' | 'cancelled' | 'failed'`. -/
inductive BookingStatus where
  | pending
  | confirmed
  | cancelled
  | failed
deriving DecidableEq, Repr

/-- `Payment.status`: `'pending' | 'completed' | 'failed' | 'refunded'`. -/
inductive PayStatus where
  | pending
  | completed
  | failed
  | refunded
deriving DecidableEq, Repr

/-- A row of the `booked_seats` table (models/booked_seat.py). -/
structure BookedSeat where
  booked_seat_id : Nat
  booking_id : Nat
  showtime_id : Nat
  seat_row : Nat
  seat_col : Nat
  status : SeatStatus
  hold_expiry_time : Option Nat
  is_deleted : Bool
deriving DecidableEq, Repr

/-- A row of the `bookings` table (models/booking.py). -/
structure Booking where
  booking_id : Nat
  user_id : Nat
  showtime_id : Nat
  payment_id : Option Nat
  status : BookingStatus
  is_deleted : Bool
deriving DecidableEq, Repr

/-- A row of the `payments` table (models/payment.py). -/
structure Payment where
  payment_id : Nat
  amount : Int
  status : PayStatus
  is_deleted : Bool
deriving DecidableEq, Repr

/-- The three tables of the service's database. -/
structure DB where
  bookings : List Booking
  seats : List BookedSeat
  payments : List Payment
deriving DecidableEq, Repr

/-- Outcome of one HTTP request to the theatre service:
either a response with a status code, or a raised `requests.RequestException`. -/
inductive RemoteResult where
  | status (code : Nat)
  | exn
deriving DecidableEq, Repr

/-- An outbound side effect, recorded even when the transaction rolls back. -/
inductive Event where
  | theatreGet (showtime_id : Nat)
  | theatrePost (showtime_id : Nat) (count : Int)
  | refundAttempt (payment_id : Nat)
deriving DecidableEq, Repr

/-- The shared SQLAlchemy session: last committed snapshot, current draft
(committed snapshot plus flushed-but-uncommitted changes), and the trace of
outbound side effects. -/
structure Sess where
  committed : DB
  draft : DB
  trace : List Event
deriving DecidableEq, Repr

/-- `db.session.commit()`. -/
def Sess.commit (s : Sess) : Sess :=
  { s with committed := s.draft }

/-- `db.session.rollback()`. -/
def Sess.rollback (s : Sess) : Sess :=
  { s with draft := s.committed }

/-- Record an outbound side effect (an HTTP call that actually went out). -/
def Sess.emit (s : Sess) (e : Event) : Sess :=
  { s with trace := s.trace ++ [e] }

/-- Error outcomes, one constructor per distinct error message in the source. -/
inductive Err where
  /-- `"Booking not found"` -/
  | bookingNotFound
  /-- `f"Booking is already {booking.status}"` -/
  | bookingAlready (st : BookingStatus)
  /-- `"Invalid or incomplete payment"` -/
  | invalidPayment
  /-- `f"Theatre service unavailable: {exc}"` -/
  | theatreUnavailable
  /-- `f"Failed to update theatre showtime seats: {resp.status_code}"`,
  `f"Theatre service error: {resp.status_code}"` -/
  | theatreError (code : Nat)
  /-- `f"Showtime {showtime_id} not found"` -/
  | showtimeNotFound (showtime_id : Nat)
  /-- `f"Seat {seat['row']}{seat['col']} is already booked or on hold"` -/
  | seatConflict (seat_row seat_col : Nat)
  /-- `"Booking is already deleted"` -/
  | alreadyDeleted
  /-- database integrity error surfaced as `f"Failed to create booking: {e}"` -/
  | integrityError
  /-- `"Payment not found"` -/
  | paymentNotFound
  /-- `f"Payment is already {payment.status}"` -/
  | paymentAlready (st : PayStatus)
  /-- `"Only completed payments can be refunded"` -/
  | notRefundable
  /-- `"Invalid payment amount"` -/
  | invalidAmount
  /-- `"Booking already has a payment associated"` -/
  | alreadyHasPayment
  /-- `f"Invalid status. Must be one of: ..."` -/
  | invalidStatus
  /-- `"Cannot confirm booking without payment ID"` -/
  | noPaymentId
  /-- `"Booked seat not found"` -/
  | seatNotFound
  /-- `"Can only extend hold for seats with 'on_hold' status"` -/
  | cannotExtend
  /-- `f"Payment processed but booking confirmation failed: {msg}"` -/
  | confirmFailed (e : Err)
deriving DecidableEq, Repr

/-- A `status=...` argument arriving as a string: either one of the valid
status strings, or any other string (rejected by the `valid_statuses` check). -/
inductive BStatusArg where
  | valid (st : BookingStatus)
  | invalid
deriving DecidableEq, Repr

/-- Seat-status update argument (string), as for `BStatusArg`. -/
inductive SStatusArg where
  | valid (st : SeatStatus)
  | invalid
deriving DecidableEq, Repr

/-- Payment-status update argument (string), as for `BStatusArg`. -/
inductive PStatusArg where
  | valid (st : PayStatus)
  | invalid
deriving DecidableEq, Repr

/-- `BookingService.get_booking(booking_id, include_deleted)`:
first row with this id, skipping soft-deleted rows unless `include_deleted`. -/
def get_booking (db : DB) (booking_id : Nat) (include_deleted : Bool) :
    Option Booking :=
  db.bookings.find? fun b =>
    decide (b.booking_id = booking_id ∧ (include_deleted = true ∨ b.is_deleted = false))

/-- `PaymentService.get_payment(payment_id)`: non-deleted row with this id. -/
def get_payment (db : DB) (payment_id : Nat) : Option Payment :=
  db.payments.find? fun p =>
    decide (p.payment_id = payment_id ∧ p.is_deleted = false)

/-- `SeatService.get_booked_seat(booked_seat_id)`: non-deleted row with this id. -/
def get_booked_seat (db : DB) (booked_seat_id : Nat) : Option BookedSeat :=
  db.seats.find? fun t =>
    decide (t.booked_seat_id = booked_seat_id ∧ t.is_deleted = false)

/-- Mutate every booking row with the given id (ids are unique in practice;
an ORM mutation writes through to the row with that primary key). -/
def mapBooking (db : DB) (booking_id : Nat) (f : Booking → Booking) : DB :=
  { db with bookings := db.bookings.map fun b =>
      if b.booking_id = booking_id then f b else b }

/-- Mutate every payment row with the given id. -/
def mapPayment (db : DB) (payment_id : Nat) (f : Payment → Payment) : DB :=
  { db with payments := db.payments.map fun p =>
      if p.payment_id = payment_id then f p else p }

/-- Mutate every seat row with the given id. -/
def mapSeat (db : DB) (booked_seat_id : Nat) (f : BookedSeat → BookedSeat) : DB :=
  { db with seats := db.seats.map fun t =>
      if t.booked_seat_id = booked_seat_id then f t else t }

/-- `seat.booking_id == bid and not seat.is_deleted`: the rows returned by
`booking.booked_seats.filter_by(is_deleted=False)`. -/
def ownedLive (booking_id : Nat) (t : BookedSeat) : Bool :=
  decide (t.booking_id = booking_id ∧ t.is_deleted = false)

/-- `BookedSeat.release()`: `status = 'released'`, soft-delete. -/
def BookedSeat.release (t : BookedSeat) : BookedSeat :=
  { t with status := .released, is_deleted := true }

/-- `BookedSeat.confirm()`: `status = 'booked'`,
`hold_expiry_time = datetime.utcnow()`. -/
def BookedSeat.confirm (now : Nat) (t : BookedSeat) : BookedSeat :=
  { t with status := .booked, hold_expiry_time := some now }

/-- `BookedSeat.is_hold_expired()`: only an `on_hold` seat with a set expiry
can be expired, and only when `utcnow() > hold_expiry_time`. -/
def BookedSeat.is_hold_expired (now : Nat) (t : BookedSeat) : Bool :=
  decide (t.status = .on_hold ∧ ∃ x, t.hold_expiry_time = some x ∧ x < now)

/-- The filter of `SeatService.check_seats_availability`: a non-deleted seat
of this showtime at this (row, col) with status in {on_hold, booked}. -/
def activeKey (showtime_id seat_row seat_col : Nat) (t : BookedSeat) : Bool :=
  decide (t.is_deleted = false ∧ (t.status = .on_hold ∨ t.status = .booked) ∧
    t.showtime_id = showtime_id ∧ t.seat_row = seat_row ∧ t.seat_col = seat_col)

/-- Release the first row matched by `p` (the object returned by `.first()`). -/
def releaseFirst (p : BookedSeat → Bool) : List BookedSeat → List BookedSeat
  | [] => []
  | t :: ts => if p t then t.release :: ts else t :: releaseFirst p ts

/-- `SeatService.check_seats_availability(showtime_id, seats)` (the per-seat
loop).  For each requested (row, col) it fetches the first active conflicting
row; an expired hold is lazily released and committed, an unexpired one aborts
with the conflicting seat.  Returns `none` on success, `some (row, col)` for
the seat named in the `SeatConflict` message. -/
def check_seats_availability (now showtime_id : Nat) :
    List (Nat × Nat) → Sess → Option (Nat × Nat) × Sess
  | [], s => (none, s)
  | (r, c) :: rest, s =>
    match (s.draft.seats.find? (activeKey showtime_id r c)) with
    | none => check_seats_availability now showtime_id rest s
    | some t =>
      if t.is_hold_expired now then
        check_seats_availability now showtime_id rest
          (Sess.commit { s with draft :=
            { s.draft with seats := releaseFirst (activeKey showtime_id r c) s.draft.seats } })
      else (some (r, c), s)

/-- `SeatService.get_booked_seats(showtime_id)`: all non-deleted
{on_hold, booked} rows of the showtime; expired holds are released (and the
release committed) instead of being returned. -/
def get_booked_seats (now showtime_id : Nat) (s : Sess) :
    List BookedSeat × Sess :=
  let isCand : BookedSeat → Bool := fun t =>
    decide (t.showtime_id = showtime_id ∧ t.is_deleted = false ∧
      (t.status = .on_hold ∨ t.status = .booked))
  let cands := s.draft.seats.filter isCand
  let active := cands.filter fun t => !(t.is_hold_expired now)
  let s' : Sess := { s with draft := { s.draft with seats :=
    (s.draft.seats.map fun t =>
      if isCand t && t.is_hold_expired now then t.release else t) } }
  (active, if cands.any (fun t => t.is_hold_expired now) then s'.commit else s')

/-- Next value of an autoincrement primary key. -/
def freshBookingId (db : DB) : Nat :=
  (db.bookings.foldl (fun m b => max m b.booking_id) 0) + 1

/-- Next value of the `booked_seats` autoincrement primary key. -/
def freshSeatId (db : DB) : Nat :=
  (db.seats.foldl (fun m t => max m t.booked_seat_id) 0) + 1

/-- Next value of the `payments` autoincrement primary key. -/
def freshPaymentId (db : DB) : Nat :=
  (db.payments.foldl (fun m p => max m p.payment_id) 0) + 1

/-- The seat rows inserted by `create_booking`: one `on_hold` row per
requested seat, expiry `now + 10` (`hold_duration_minutes=10`), ids assigned
by the autoincrement sequence. -/
def mkSeats (baseId booking_id showtime_id now : Nat) :
    List (Nat × Nat) → List BookedSeat
  | [] => []
  | (r, c) :: rest =>
    { booked_seat_id := baseId, booking_id := booking_id,
      showtime_id := showtime_id, seat_row := r, seat_col := c,
      status := .on_hold, hold_expiry_time := some (now + 10),
      is_deleted := false } :: mkSeats (baseId + 1) booking_id showtime_id now rest

/-- The `UniqueConstraint('showtime_id','seat_row','seat_col','booking_id')`
on the `booked_seats` table: no two distinct rows agree on all four columns. -/
def uqOk : List BookedSeat → Bool
  | [] => true
  | t :: ts =>
    ts.all (fun u => !decide (t.showtime_id = u.showtime_id ∧
      t.seat_row = u.seat_row ∧ t.seat_col = u.seat_col ∧
      t.booking_id = u.booking_id)) && uqOk ts

/-- `BookingService.create_booking(user_id, showtime_id, seats)`.
`g` is the outcome of `GET /showtimes/{showtime_id}`; seat insertion commits
only if the table's unique constraint holds, otherwise the commit raises and
the transaction is rolled back. -/
def create_booking (now user_id showtime_id : Nat) (seats : List (Nat × Nat))
    (g : RemoteResult) (s : Sess) : Option Nat × Option Err × Sess :=
  let s := s.emit (.theatreGet showtime_id)
  match g with
  | .exn => (none, some .theatreUnavailable, s)
  | .status code =>
    if code = 404 then (none, some (.showtimeNotFound showtime_id), s)
    else if 400 ≤ code then (none, some (.theatreError code), s)
    else
      match check_seats_availability now showtime_id seats s with
      | (some rc, s) => (none, some (.seatConflict rc.1 rc.2), s)
      | (none, s) =>
        let bid := freshBookingId s.draft
        let d := { s.draft with bookings := s.draft.bookings ++
          [({ booking_id := bid, user_id := user_id, showtime_id := showtime_id,
              payment_id := none, status := .pending,
              is_deleted := false } : Booking)] }
        let d := { d with seats :=
          (d.seats ++ mkSeats (freshSeatId d) bid showtime_id now seats) }
        if uqOk d.seats then (some bid, none, Sess.commit { s with draft := d })
        else (none, some .integrityError, Sess.rollback { s with draft := d })

/-- `BookingService.confirm_booking(booking_id, payment_id)`.
`r` is the outcome of `POST /showtimes/{id}/seats {count: num_seats}`. -/
def confirm_booking (now booking_id payment_id : Nat) (r : RemoteResult)
    (s : Sess) : Option Err × Sess :=
  match get_booking s.draft booking_id false with
  | none => (some .bookingNotFound, s)
  | some b =>
    if b.status ≠ .pending then (some (.bookingAlready b.status), s)
    else
      match get_payment s.draft payment_id with
      | none => (some .invalidPayment, s)
      | some p =>
        if p.status ≠ .completed then (some .invalidPayment, s)
        else
          let numSeats := (s.draft.seats.filter (ownedLive booking_id)).length
          let s := s.emit (.theatrePost b.showtime_id (Int.ofNat numSeats))
          match r with
          | .exn => (some .theatreUnavailable, s.rollback)
          | .status code =>
            if 400 ≤ code then (some (.theatreError code), s.rollback)
            else
              let d := mapBooking s.draft booking_id fun b =>
                { b with payment_id := some payment_id, status := .confirmed }
              let d := { d with seats := (d.seats.map fun t =>
                if ownedLive booking_id t then t.confirm now else t) }
              (none, Sess.commit { s with draft := d })

/-- `PaymentService.refund_payment(payment_id)`: allowed only from
`completed`; the attempt itself (traced) happens regardless of outcome. -/
def refund_payment (payment_id : Nat) (s : Sess) : Option Err × Sess :=
  let s := s.emit (.refundAttempt payment_id)
  match get_payment s.draft payment_id with
  | none => (some .paymentNotFound, s)
  | some p =>
    if p.status ≠ .completed then (some .notRefundable, s)
    else
      (none, Sess.commit { s with draft :=
        (mapPayment s.draft payment_id fun q => { q with status := .refunded }) })

/-- `Booking.cancel()` applied to the draft: set status `cancelled` and
release every owned non-deleted seat. -/
def applyCancel (db : DB) (booking_id : Nat) : DB :=
  let d := mapBooking db booking_id fun b => { b with status := .cancelled }
  { d with seats := (d.seats.map fun t =>
      if ownedLive booking_id t then t.release else t) }

/-- `BookingService.cancel_booking(booking_id)`.  The theatre decrement is
best-effort (`r` is only traced); a linked payment gets a refund attempt. -/
def cancel_booking (booking_id : Nat) (r : RemoteResult) (s : Sess) :
    Option Err × Sess :=
  match get_booking s.draft booking_id false with
  | none => (some .bookingNotFound, s)
  | some b =>
    if b.status = .cancelled then (some (.bookingAlready .cancelled), s)
    else
      let cnt := (s.draft.seats.filter (ownedLive booking_id)).length
      let s := { s with draft := applyCancel s.draft booking_id }
      let s := s.emit (.theatrePost b.showtime_id (-(Int.ofNat cnt)))
      let s := match b.payment_id with
        | some pp => (refund_payment pp s).2
        | none => s
      (none, s.commit)

/-- `BookingService.fail_booking(booking_id)`: like cancel but to `failed`,
without the refund. -/
def fail_booking (booking_id : Nat) (r : RemoteResult) (s : Sess) :
    Option Err × Sess :=
  match get_booking s.draft booking_id false with
  | none => (some .bookingNotFound, s)
  | some b =>
    if b.status = .failed then (some (.bookingAlready .failed), s)
    else
      let cnt := (s.draft.seats.filter (ownedLive booking_id)).length
      let d := mapBooking s.draft booking_id fun bb => { bb with status := .failed }
      let d := { d with seats := (d.seats.map fun t =>
        if ownedLive booking_id t then t.release else t) }
      let s := ({ s with draft := d } : Sess).emit
        (.theatrePost b.showtime_id (-(Int.ofNat cnt)))
      (none, s.commit)

/-- The filter of `BookingService.release_expired_holds`: non-deleted
`on_hold` rows with `hold_expiry_time < utcnow()`. -/
def expiredHold (now : Nat) (t : BookedSeat) : Bool :=
  decide (t.status = .on_hold ∧ (∃ x, t.hold_expiry_time = some x ∧ x < now) ∧
    t.is_deleted = false)

/-- One step of the booking-cancellation loop in `release_expired_holds`:
`Booking.query.get(booking_id)` (primary-key lookup, soft-deleted rows
included) and `booking.cancel()` when still pending. -/
def cancelIfPending (db : DB) (booking_id : Nat) : DB :=
  match db.bookings.find? (fun b => decide (b.booking_id = booking_id)) with
  | none => db
  | some b => if b.status = .pending then applyCancel db booking_id else db

/-- `BookingService.release_expired_holds()`: release every expired
non-deleted `on_hold` seat, then cancel each still-pending booking that owned
one.  Returns the number of released holds. -/
def release_expired_holds (now : Nat) (s : Sess) : Nat × Sess :=
  let expired := s.draft.seats.filter (expiredHold now)
  let bids := (expired.map (·.booking_id)).dedup
  let d := { s.draft with seats := (s.draft.seats.map fun t =>
    if expiredHold now t then t.release else t) }
  let d := bids.foldl cancelIfPending d
  (expired.length, Sess.commit { s with draft := d })

/-- `BookingService.delete_booking(booking_id)`: looks up including deleted
rows, rejects an already-deleted booking, otherwise soft-deletes it and
releases its seats (theatre decrement best-effort). -/
def delete_booking (booking_id : Nat) (r : RemoteResult) (s : Sess) :
    Option Err × Sess :=
  match get_booking s.draft booking_id true with
  | none => (some .bookingNotFound, s)
  | some b =>
    if b.is_deleted then (some .alreadyDeleted, s)
    else
      let d := mapBooking s.draft booking_id fun bb => { bb with is_deleted := true }
      let cnt := (d.seats.filter (ownedLive booking_id)).length
      let d := { d with seats := (d.seats.map fun t =>
        if ownedLive booking_id t then t.release else t) }
      let s := ({ s with draft := d } : Sess).emit
        (.theatrePost b.showtime_id (-(Int.ofNat cnt)))
      (none, s.commit)

/-- `BookingService.update_booking(booking_id, status, payment_id)`: applies
the payment link first (flushed), then routes status changes through
confirm / fail / cancel, or sets the status directly when no transition logic
applies (in particular `status='pending'`). -/
def update_booking (now booking_id : Nat) (statusArg : Option BStatusArg)
    (paymentArg : Option Nat) (r : RemoteResult) (s : Sess) :
    Option Err × Sess :=
  match get_booking s.draft booking_id false with
  | none => (some .bookingNotFound, s)
  | some b0 =>
    let s := match paymentArg with
      | some pid => { s with draft := (mapBooking s.draft booking_id fun bb =>
          { bb with payment_id := some pid }) }
      | none => s
    let b := match paymentArg with
      | some pid => { b0 with payment_id := some pid }
      | none => b0
    match statusArg with
    | none => (none, s.commit)
    | some .invalid => (some .invalidStatus, s)
    | some (.valid st) =>
      if st = .confirmed ∧ b.status ≠ .confirmed then
        match (match paymentArg with
               | some pid => some pid
               | none => b.payment_id) with
        | none => (some .noPaymentId, s)
        | some pid => confirm_booking now booking_id pid r s
      else if st = .failed ∧ b.status ≠ .failed then
        fail_booking booking_id r s
      else if st = .cancelled ∧ b.status ≠ .cancelled then
        cancel_booking booking_id r s
      else
        (none, Sess.commit { s with draft :=
          (mapBooking s.draft booking_id fun bb => { bb with status := st }) })

/-- `SeatService.update_booked_seat(booked_seat_id, status,
additional_minutes)`. -/
def update_booked_seat (now booked_seat_id : Nat)
    (statusArg : Option SStatusArg) (additional_minutes : Option Nat)
    (s : Sess) : Option Err × Sess :=
  match get_booked_seat s.draft booked_seat_id with
  | none => (some .seatNotFound, s)
  | some t0 =>
    match statusArg with
    | some .invalid => (some .invalidStatus, s)
    | _ =>
      let s := match statusArg with
        | some (.valid st) =>
          if st = .booked ∧ t0.status = .on_hold then
            { s with draft := mapSeat s.draft booked_seat_id (BookedSeat.confirm now) }
          else if st = .released then
            { s with draft := mapSeat s.draft booked_seat_id BookedSeat.release }
          else
            { s with draft := (mapSeat s.draft booked_seat_id fun t =>
                { t with status := st }) }
        | _ => s
      let t1 : BookedSeat := match statusArg with
        | some (.valid st) =>
          if st = .booked ∧ t0.status = .on_hold then t0.confirm now
          else if st = .released then t0.release
          else { t0 with status := st }
        | _ => t0
      match additional_minutes with
      | some m =>
        if t1.status ≠ .on_hold then (some .cannotExtend, s)
        else
          (none, Sess.commit { s with draft :=
            (mapSeat s.draft booked_seat_id fun t =>
              { t with hold_expiry_time := some (now + m) }) })
      | none => (none, s.commit)

/-- `PaymentService.create_payment(amount, booking_id)`. -/
def create_payment (amount : Int) (booking_id : Nat) (s : Sess) :
    Option Nat × Option Err × Sess :=
  if amount ≤ 0 then (none, some .invalidAmount, s)
  else
    match get_booking s.draft booking_id false with
    | none => (none, some .bookingNotFound, s)
    | some b =>
      if b.payment_id.isSome then (none, some .alreadyHasPayment, s)
      else
        let pid := freshPaymentId s.draft
        let d := { s.draft with payments := s.draft.payments ++
          [({ payment_id := pid, amount := amount, status := .pending,
              is_deleted := false } : Payment)] }
        let d := mapBooking d booking_id fun bb => { bb with payment_id := some pid }
        (some pid, none, Sess.commit { s with draft := d })

/-- `PaymentService.process_payment(payment_id)`: complete the payment
(flushed), then confirm the linked booking (looked up by `payment_id` with no
soft-delete filter) via `update_booking(status='confirmed')`; if that fails
the whole session is rolled back. -/
def process_payment (now payment_id : Nat) (r : RemoteResult) (s : Sess) :
    Option Err × Sess :=
  match get_payment s.draft payment_id with
  | none => (some .paymentNotFound, s)
  | some p =>
    if p.status ≠ .pending then (some (.paymentAlready p.status), s)
    else
      let s := { s with draft := (mapPayment s.draft payment_id fun q =>
        { q with status := .completed }) }
      match s.draft.bookings.find? (fun b => decide (b.payment_id = some payment_id)) with
      | none => (none, s.commit)
      | some bk =>
        match update_booking now bk.booking_id (some (.valid .confirmed))
            (some payment_id) r s with
        | (some e, s) => (some (.confirmFailed e), s.rollback)
        | (none, s) => (none, s.commit)

/-- `PaymentService.update_payment(payment_id, amount, status)`: a generic
update that sets any requested valid status with no transition checks. -/
def update_payment (payment_id : Nat) (amountArg : Option Int)
    (statusArg : Option PStatusArg) (s : Sess) : Option Err × Sess :=
  match get_payment s.draft payment_id with
  | none => (some .paymentNotFound, s)
  | some _ =>
    match amountArg with
    | some a =>
      if a ≤ 0 then (some .invalidAmount, s)
      else
        let s := { s with draft := (mapPayment s.draft payment_id fun q =>
          { q with amount := a }) }
        match statusArg with
        | some .invalid => (some .invalidStatus, s)
        | some (.valid st) =>
          (none, Sess.commit { s with draft :=
            (mapPayment s.draft payment_id fun q => { q with status := st }) })
        | none => (none, s.commit)
    | none =>
      match statusArg with
      | some .invalid => (some .invalidStatus, s)
      | some (.valid st) =>
        (none, Sess.commit { s with draft :=
          (mapPayment s.draft payment_id fun q => { q with status := st }) })
      | none => (none, s.commit)

/-- A fresh per-request session over the committed database `db`. -/
def Sess.init (db : DB) : Sess := ⟨db, db, []⟩

/-- Seat-uniqueness on a seat table: for every (showtime, row, col) key, at
most one non-deleted row has status in {on_hold, booked}. -/
def seatUniqL (l : List BookedSeat) : Prop :=
  ∀ st r c, l.countP (activeKey st r c) ≤ 1

/-- Every `released` row is soft-deleted (releases always soft-delete). -/
def relDelL (l : List BookedSeat) : Prop :=
  ∀ t ∈ l, t.status = .released → t.is_deleted = true

/-- The seat-table invariant maintained by the service operations. -/
def InvL (l : List BookedSeat) : Prop := seatUniqL l ∧ relDelL l

/-- Seat-uniqueness of a database state (claim C1's property). -/
def SeatUniq (db : DB) : Prop := seatUniqL db.seats

theorem activeKey_release (st r c : Nat) (t : BookedSeat) :
    activeKey st r c t.release = false := by
  simp [activeKey, BookedSeat.release]

theorem is_hold_expired_release (now : Nat) (t : BookedSeat) :
    (BookedSeat.release t).is_hold_expired now = false := by
  simp [BookedSeat.is_hold_expired, BookedSeat.release]

/-- The four shapes of seat mutation the service performs. -/
def SeatMut (now : Nat) (g : BookedSeat → BookedSeat) : Prop :=
  ∀ t, g t = t ∨ g t = t.release ∨ g t = t.confirm now ∨
    (∃ st, (st = SeatStatus.on_hold ∨ st = SeatStatus.booked) ∧
      g t = { t with status := st }) ∨
    (∃ x, g t = { t with hold_expiry_time := x })

theorem activeKey_of_seatMut (now st r c : Nat) (g : BookedSeat → BookedSeat)
    (hg : SeatMut now g) (t : BookedSeat)
    (hrd : t.status = .released → t.is_deleted = true)
    (h : activeKey st r c (g t) = true) : activeKey st r c t = true := by
  rcases hg t with h0 | h0 | h0 | ⟨s0, hs0, h0⟩ | ⟨x, h0⟩ <;> rw [h0] at h
  · exact h
  · simp [activeKey_release] at h
  · simp only [activeKey, BookedSeat.confirm, decide_eq_true_eq] at h ⊢
    obtain ⟨h1, _, h3⟩ := h
    refine ⟨h1, ?_, h3⟩
    cases hst : t.status with
    | on_hold => exact Or.inl rfl
    | booked => exact Or.inr rfl
    | released => simp [hrd hst] at h1
  · simp only [activeKey, decide_eq_true_eq] at h ⊢
    obtain ⟨h1, _, h3⟩ := h
    refine ⟨h1, ?_, h3⟩
    cases hst : t.status with
    | on_hold => exact Or.inl rfl
    | booked => exact Or.inr rfl
    | released => simp [hrd hst] at h1
  · simpa only [activeKey, decide_eq_true_eq] using h

theorem relDel_of_seatMut (now : Nat) (g : BookedSeat → BookedSeat)
    (hg : SeatMut now g) (t : BookedSeat)
    (hrd : t.status = .released → t.is_deleted = true)
    (h : (g t).status = .released) : (g t).is_deleted = true := by
  rcases hg t with h0 | h0 | h0 | ⟨s0, hs0, h0⟩ | ⟨x, h0⟩ <;> rw [h0] at h ⊢
  · exact hrd h
  · simp [BookedSeat.release]
  · simp [BookedSeat.confirm] at h
  · simp only at h
    rcases hs0 with rfl | rfl <;> simp_all
  · exact hrd h

/-- Any sequence of the service's seat mutations, applied row-wise,
preserves the seat-table invariant. -/
theorem invL_map (now : Nat) (l : List BookedSeat) (g : BookedSeat → BookedSeat)
    (hg : SeatMut now g) (hInv : InvL l) : InvL (l.map g) := by
  obtain ⟨hu, hrd⟩ := hInv
  constructor
  · intro st r c
    calc (l.map g).countP (activeKey st r c)
        = l.countP (activeKey st r c ∘ g) := List.countP_map _ _ _
      _ ≤ l.countP (activeKey st r c) := by
          refine List.countP_mono_left fun t ht h => ?_
          exact activeKey_of_seatMut now st r c g hg t (hrd t ht) h
      _ ≤ 1 := hu st r c
  · intro x hx hst
    obtain ⟨t, ht, rfl⟩ := List.mem_map.mp hx
    exact relDel_of_seatMut now g hg t (hrd t ht) hst

theorem countP_releaseFirst_succ (p q : BookedSeat → Bool)
    (hq : ∀ a : BookedSeat, q (BookedSeat.release a) = false) :
    ∀ (l : List BookedSeat) (t : BookedSeat), l.find? p = some t → q t = true →
      (releaseFirst p l).countP q + 1 = l.countP q := by
  intro l
  induction l with
  | nil => intro t ht; simp at ht
  | cons a l ih =>
    intro t ht hqt
    by_cases hpa : p a = true
    · rw [List.find?_cons_of_pos _ hpa] at ht
      cases ht
      simp [releaseFirst, hpa, List.countP_cons, hq, hqt]
    · rw [List.find?_cons_of_neg _ hpa] at ht
      have := ih t ht hqt
      simp only [releaseFirst, if_neg hpa, List.countP_cons]
      omega

theorem countP_releaseFirst_le (p q : BookedSeat → Bool)
    (hq : ∀ a : BookedSeat, q (BookedSeat.release a) = false)
    (l : List BookedSeat) :
    (releaseFirst p l).countP q ≤ l.countP q := by
  induction l with
  | nil => simp [releaseFirst]
  | cons a l ih =>
    by_cases hpa : p a = true
    · have h0 : (BookedSeat.release a :: l).countP q = l.countP q := by
        simp [List.countP_cons, hq]
      simp only [releaseFirst, if_pos hpa, h0, List.countP_cons]
      omega
    · simp only [releaseFirst, if_neg hpa, List.countP_cons]
      omega

theorem mem_releaseFirst (p : BookedSeat → Bool) :
    ∀ (l : List BookedSeat) (x : BookedSeat), x ∈ releaseFirst p l →
      x ∈ l ∨ ∃ a ∈ l, p a = true ∧ x = a.release := by
  intro l
  induction l with
  | nil => intro x hx; simp [releaseFirst] at hx
  | cons a l ih =>
    intro x hx
    by_cases hpa : p a = true
    · simp only [releaseFirst, if_pos hpa, List.mem_cons] at hx
      rcases hx with hx | hx
      · exact Or.inr ⟨a, List.mem_cons_self a l, hpa, hx⟩
      · exact Or.inl (List.mem_cons_of_mem a hx)
    · simp only [releaseFirst, if_neg hpa, List.mem_cons] at hx
      rcases hx with hx | hx
      · exact Or.inl (by rw [hx]; exact List.mem_cons_self a l)
      · rcases ih x hx with h | ⟨b, hb, hpb, hxb⟩
        · exact Or.inl (List.mem_cons_of_mem a h)
        · exact Or.inr ⟨b, List.mem_cons_of_mem a hb, hpb, hxb⟩

theorem releaseFirst_mem_of_ne (p : BookedSeat → Bool) :
    ∀ (l : List BookedSeat) (x : BookedSeat), x ∈ l →
      (∀ b, l.find? p = some b → x ≠ b) → x ∈ releaseFirst p l := by
  intro l
  induction l with
  | nil => intro x hx; simp at hx
  | cons a l ih =>
    intro x hx hne
    by_cases hpa : p a = true
    · have hfind : (a :: l).find? p = some a := List.find?_cons_of_pos _ hpa
      rcases List.mem_cons.mp hx with hx1 | hx1
      · exact absurd hx1 (hne a hfind)
      · simp only [releaseFirst, if_pos hpa]
        exact List.mem_cons_of_mem _ hx1
    · have hfind : (a :: l).find? p = l.find? p := List.find?_cons_of_neg _ hpa
      rcases List.mem_cons.mp hx with hx1 | hx1
      · simp only [releaseFirst, if_neg hpa]
        rw [hx1]
        exact List.mem_cons_self a _
      · simp only [releaseFirst, if_neg hpa]
        refine List.mem_cons_of_mem a (ih x hx1 fun b hb => hne b (hfind.trans hb))

theorem countP_le_one_unique (p : BookedSeat → Bool) :
    ∀ (l : List BookedSeat), l.countP p ≤ 1 → ∀ a ∈ l, ∀ b ∈ l,
      p a = true → p b = true → a = b := by
  intro l
  induction l with
  | nil => intro _ a ha; simp at ha
  | cons x l ih =>
    intro hle a ha b hb hpa hpb
    simp only [List.countP_cons] at hle
    rcases List.mem_cons.mp ha with ha1 | ha1 <;>
      rcases List.mem_cons.mp hb with hb1 | hb1
    · rw [ha1, hb1]
    · exfalso
      subst ha1
      have h1 : 0 < l.countP p := List.countP_pos_iff.mpr ⟨b, hb1, hpb⟩
      rw [if_pos hpa] at hle
      omega
    · exfalso
      subst hb1
      have h1 : 0 < l.countP p := List.countP_pos_iff.mpr ⟨a, ha1, hpa⟩
      rw [if_pos hpb] at hle
      omega
    · exact ih (by omega) a ha1 b hb1 hpa hpb

/-- How one row can evolve during an availability check: unchanged, or (when
it was an expired hold) lazily released. -/
def relSeat (now : Nat) (a b : BookedSeat) : Prop :=
  b = a ∨ (a.is_hold_expired now = true ∧ b = a.release)

theorem forall₂_relSeat_refl (now : Nat) (l : List BookedSeat) :
    List.Forall₂ (relSeat now) l l :=
  List.forall₂_same.mpr fun _ _ => Or.inl rfl

theorem relSeat_trans (now : Nat) (a b c : BookedSeat)
    (h1 : relSeat now a b) (h2 : relSeat now b c) : relSeat now a c := by
  rcases h1 with rfl | ⟨he, rfl⟩
  · exact h2
  · rcases h2 with rfl | ⟨he2, rfl⟩
    · exact Or.inr ⟨he, rfl⟩
    · rw [is_hold_expired_release] at he2
      cases he2

theorem forall₂_relSeat_trans (now : Nat) :
    ∀ {l1 l2 l3 : List BookedSeat}, List.Forall₂ (relSeat now) l1 l2 →
      List.Forall₂ (relSeat now) l2 l3 → List.Forall₂ (relSeat now) l1 l3 := by
  intro l1 l2 l3 h1
  induction h1 generalizing l3 with
  | nil => intro h2; cases h2; exact List.Forall₂.nil
  | cons hab htail ih =>
    intro h2
    cases h2 with
    | cons hbc h2tail =>
      exact List.Forall₂.cons (relSeat_trans now _ _ _ hab hbc) (ih h2tail)

theorem forall₂_relSeat_releaseFirst (now : Nat) (p : BookedSeat → Bool) :
    ∀ (l : List BookedSeat) (t : BookedSeat), l.find? p = some t →
      t.is_hold_expired now = true →
      List.Forall₂ (relSeat now) l (releaseFirst p l) := by
  intro l
  induction l with
  | nil => intro t ht; simp at ht
  | cons a l ih =>
    intro t ht hexp
    by_cases hpa : p a = true
    · rw [List.find?_cons_of_pos _ hpa] at ht
      cases ht
      simp only [releaseFirst, if_pos hpa]
      exact List.Forall₂.cons (Or.inr ⟨hexp, rfl⟩) (forall₂_relSeat_refl now l)
    · rw [List.find?_cons_of_neg _ hpa] at ht
      simp only [releaseFirst, if_neg hpa]
      exact List.Forall₂.cons (Or.inl rfl) (ih t ht hexp)

theorem countP_le_of_forall₂_relSeat (now : Nat) (q : BookedSeat → Bool)
    (hq : ∀ a : BookedSeat, q (BookedSeat.release a) = false) :
    ∀ {l l' : List BookedSeat}, List.Forall₂ (relSeat now) l l' →
      l'.countP q ≤ l.countP q := by
  intro l l' h
  induction h with
  | nil => exact Nat.le_refl 0
  | cons hab htail ih =>
    rename_i a b l1 l2
    rcases hab with h1 | ⟨_, h1⟩ <;> rw [h1] <;>
      simp only [List.countP_cons, hq] <;> simp <;> omega

theorem active_mem_of_forall₂_relSeat (now st r c : Nat) :
    ∀ {l l' : List BookedSeat}, List.Forall₂ (relSeat now) l l' →
      ∀ x ∈ l', activeKey st r c x = true → x ∈ l := by
  intro l l' h
  induction h with
  | nil => intro x hx; simp at hx
  | cons hab htail ih =>
    rename_i a b l1 l2
    intro x hx hact
    rcases List.mem_cons.mp hx with hx1 | hx1
    · rcases hab with h1 | ⟨_, h1⟩
      · rw [hx1, h1]
        exact List.mem_cons_self _ _
      · rw [hx1, h1, activeKey_release] at hact
        cases hact
    · exact List.mem_cons_of_mem a (ih x hx1 hact)

theorem check_cons_none (now st r c : Nat) (rest : List (Nat × Nat)) (s : Sess)
    (hf : s.draft.seats.find? (activeKey st r c) = none) :
    check_seats_availability now st ((r, c) :: rest) s =
      check_seats_availability now st rest s := by
  simp [check_seats_availability, hf]

theorem check_cons_expired (now st r c : Nat) (rest : List (Nat × Nat))
    (s : Sess) (t : BookedSeat)
    (hf : s.draft.seats.find? (activeKey st r c) = some t)
    (hexp : t.is_hold_expired now = true) :
    check_seats_availability now st ((r, c) :: rest) s =
      check_seats_availability now st rest
        (Sess.commit { s with draft := { s.draft with
          seats := releaseFirst (activeKey st r c) s.draft.seats } }) := by
  simp [check_seats_availability, hf, hexp]

theorem check_cons_conflict (now st r c : Nat) (rest : List (Nat × Nat))
    (s : Sess) (t : BookedSeat)
    (hf : s.draft.seats.find? (activeKey st r c) = some t)
    (hexp : t.is_hold_expired now = false) :
    check_seats_availability now st ((r, c) :: rest) s = (some (r, c), s) := by
  simp [check_seats_availability, hf, hexp]

/-- Full characterisation of `check_seats_availability` on a seat table
satisfying the uniqueness invariant: it only touches seats (lazily releasing
expired holds), succeeds iff every active conflict is expired, leaves no
active row at any requested key on success, and on failure names a requested
seat with an unexpired active conflict. -/
theorem check_spec (now st : Nat) :
    ∀ (req : List (Nat × Nat)) (s : Sess) (conf : Option (Nat × Nat)) (s' : Sess),
      check_seats_availability now st req s = (conf, s') →
      seatUniqL s.draft.seats →
      (s'.draft.bookings = s.draft.bookings ∧
        s'.draft.payments = s.draft.payments ∧ s'.trace = s.trace) ∧
      List.Forall₂ (relSeat now) s.draft.seats s'.draft.seats ∧
      (s' = s ∨ s'.committed = s'.draft) ∧
      ((conf = none) ↔ ∀ rc ∈ req, ∀ e ∈ s.draft.seats,
        activeKey st rc.1 rc.2 e = true → e.is_hold_expired now = true) ∧
      (conf = none → ∀ rc ∈ req,
        s'.draft.seats.countP (activeKey st rc.1 rc.2) = 0) ∧
      (∀ rc, conf = some rc → rc ∈ req ∧ ∃ e ∈ s.draft.seats,
        activeKey st rc.1 rc.2 e = true ∧ e.is_hold_expired now = false) := by
  intro req
  induction req with
  | nil =>
    intro s conf s' h hu
    simp only [check_seats_availability] at h
    injection h with h1 h2
    subst h1
    subst h2
    refine ⟨⟨rfl, rfl, rfl⟩, forall₂_relSeat_refl now _, Or.inl rfl, ?_, ?_, ?_⟩
    · simp
    · intro _ rc hrc
      simp at hrc
    · intro rc hrc
      simp at hrc
  | cons rc0 rest ih =>
    obtain ⟨r, c⟩ := rc0
    intro s conf s' h hu
    cases hf : s.draft.seats.find? (activeKey st r c) with
    | none =>
      rw [check_cons_none now st r c rest s hf] at h
      obtain ⟨P1, P2, P3, P4, P5, P6⟩ := ih s conf s' h hu
      have hnone : ∀ e ∈ s.draft.seats, activeKey st r c e = true → False := by
        intro e he hact
        have h0 := List.find?_eq_none.mp hf e he
        simp [hact] at h0
      refine ⟨P1, P2, P3, ?_, ?_, ?_⟩
      · constructor
        · intro hc rc' hrc' e he hact
          rcases List.mem_cons.mp hrc' with h0 | h0
          · exact absurd hact (by
              rw [h0]
              intro hact'
              exact hnone e he hact')
          · exact P4.mp hc rc' h0 e he hact
        · intro H
          exact P4.mpr fun rc' hrc' => H rc' (List.mem_cons_of_mem _ hrc')
      · intro hc rc' hrc'
        rcases List.mem_cons.mp hrc' with h0 | h0
        · have h00 : s.draft.seats.countP (activeKey st r c) = 0 :=
            List.countP_eq_zero.mpr fun e he hact => hnone e he hact
          have hle := countP_le_of_forall₂_relSeat now (activeKey st r c)
            (fun a => activeKey_release st r c a) P2
          rw [h0]
          show s'.draft.seats.countP (activeKey st r c) = 0
          omega
        · exact P5 hc rc' h0
      · intro rc' hc
        obtain ⟨hin, he⟩ := P6 rc' hc
        exact ⟨List.mem_cons_of_mem _ hin, he⟩
    | some t =>
      have htmem : t ∈ s.draft.seats := List.mem_of_find?_eq_some hf
      have htact : activeKey st r c t = true := List.find?_some hf
      by_cases hexp : t.is_hold_expired now = true
      · rw [check_cons_expired now st r c rest s t hf hexp] at h
        have hu₁ : seatUniqL (Sess.commit { s with draft := { s.draft with
            seats := releaseFirst (activeKey st r c) s.draft.seats } }).draft.seats := by
          intro st' r' c'
          exact le_trans
            (countP_releaseFirst_le _ _ (fun a => activeKey_release st' r' c' a) _)
            (hu st' r' c')
        obtain ⟨P1, P2, P3, P4, P5, P6⟩ := ih _ conf s' h hu₁
        have hF : List.Forall₂ (relSeat now) s.draft.seats
            (Sess.commit { s with draft := { s.draft with
              seats := releaseFirst (activeKey st r c) s.draft.seats } }).draft.seats :=
          forall₂_relSeat_releaseFirst now _ _ t hf hexp
        refine ⟨P1, forall₂_relSeat_trans now hF P2, ?_, ?_, ?_, ?_⟩
        · rcases P3 with h0 | h0
          · exact Or.inr (by rw [h0]; rfl)
          · exact Or.inr h0
        · constructor
          · intro hc rc' hrc' e he hact
            rcases List.mem_cons.mp hrc' with h0 | h0
            · have h1 : activeKey st r c e = true := by rw [h0] at hact; exact hact
              have h2 : e = t :=
                countP_le_one_unique (activeKey st r c) s.draft.seats (hu st r c)
                  e he t htmem h1 htact
              rw [h2]
              exact hexp
            · by_cases het : e = t
              · rw [het]
                exact hexp
              · have hmem₁ : e ∈ releaseFirst (activeKey st r c) s.draft.seats :=
                  releaseFirst_mem_of_ne _ _ e he fun b hb => by
                    rw [hf] at hb
                    injection hb with hb1
                    exact fun hb2 => het (hb2.trans hb1.symm)
                exact P4.mp hc rc' h0 e hmem₁ hact
          · intro H
            refine P4.mpr fun rc' hrc' e he hact => ?_
            rcases mem_releaseFirst (activeKey st r c) s.draft.seats e he
              with h0 | ⟨a, _, _, h0⟩
            · exact H rc' (List.mem_cons_of_mem _ hrc') e h0 hact
            · rw [h0, activeKey_release] at hact
              cases hact
        · intro hc rc' hrc'
          rcases List.mem_cons.mp hrc' with h0 | h0
          · have hsucc := countP_releaseFirst_succ (activeKey st r c)
              (activeKey st r c) (fun a => activeKey_release st r c a)
              s.draft.seats t hf htact
            have hle1 : s.draft.seats.countP (activeKey st r c) ≤ 1 := hu st r c
            have h00 : (releaseFirst (activeKey st r c) s.draft.seats).countP
                (activeKey st r c) = 0 := by omega
            have hle : s'.draft.seats.countP (activeKey st r c) ≤
                (releaseFirst (activeKey st r c) s.draft.seats).countP
                  (activeKey st r c) :=
              countP_le_of_forall₂_relSeat now (activeKey st r c)
                (fun a => activeKey_release st r c a) P2
            rw [h0]
            show s'.draft.seats.countP (activeKey st r c) = 0
            omega
          · exact P5 hc rc' h0
        · intro rc' hc
          obtain ⟨hin, e, he, hact, hne⟩ := P6 rc' hc
          have he' : e ∈ s.draft.seats := by
            rcases mem_releaseFirst (activeKey st r c) s.draft.seats e he
              with h0 | ⟨a, _, _, h0⟩
            · exact h0
            · rw [h0, activeKey_release] at hact
              cases hact
          exact ⟨List.mem_cons_of_mem _ hin, e, he', hact, hne⟩
      · have hexpF : t.is_hold_expired now = false := by
          cases h0 : t.is_hold_expired now
          · rfl
          · exact absurd h0 hexp
        rw [check_cons_conflict now st r c rest s t hf hexpF] at h
        injection h with h1 h2
        subst h2
        refine ⟨⟨rfl, rfl, rfl⟩, forall₂_relSeat_refl now _, Or.inl rfl, ?_, ?_, ?_⟩
        · constructor
          · intro hc
            rw [← h1] at hc
            cases hc
          · intro H
            exact absurd (H (r, c) (List.mem_cons_self _ _) t htmem htact)
              (by rw [hexpF]; simp)
        · intro hc
          rw [← h1] at hc
          cases hc
        · intro rc' hc
          rw [← h1] at hc
          injection hc with h3
          rw [← h3]
          exact ⟨List.mem_cons_self _ _, t, htmem, htact, hexpF⟩

/-- The invariant holds in both the committed snapshot and the draft. -/
def InvS (s : Sess) : Prop := InvL s.committed.seats ∧ InvL s.draft.seats

theorem invS_commit {s : Sess} (h : InvS s) : InvS s.commit := ⟨h.2, h.2⟩

theorem invS_rollback {s : Sess} (h : InvS s) : InvS s.rollback := ⟨h.1, h.1⟩

theorem seatMut_ite_release (now : Nat) (cond : BookedSeat → Prop)
    [DecidablePred cond] :
    SeatMut now fun t => if cond t then t.release else t := by
  intro t
  dsimp only
  by_cases hc : cond t
  · rw [if_pos hc]
    exact Or.inr (Or.inl rfl)
  · rw [if_neg hc]
    exact Or.inl rfl

theorem seatMut_ite_confirm (now : Nat) (cond : BookedSeat → Prop)
    [DecidablePred cond] :
    SeatMut now fun t => if cond t then t.confirm now else t := by
  intro t
  dsimp only
  by_cases hc : cond t
  · rw [if_pos hc]
    exact Or.inr (Or.inr (Or.inl rfl))
  · rw [if_neg hc]
    exact Or.inl rfl

theorem seatMut_ite_status (now : Nat) (cond : BookedSeat → Prop)
    [DecidablePred cond] (st : SeatStatus)
    (hst : st = SeatStatus.on_hold ∨ st = SeatStatus.booked) :
    SeatMut now fun t => if cond t then { t with status := st } else t := by
  intro t
  dsimp only
  by_cases hc : cond t
  · rw [if_pos hc]
    exact Or.inr (Or.inr (Or.inr (Or.inl ⟨st, hst, rfl⟩)))
  · rw [if_neg hc]
    exact Or.inl rfl

theorem seatMut_ite_expiry (now : Nat) (cond : BookedSeat → Prop)
    [DecidablePred cond] (x : Option Nat) :
    SeatMut now fun t => if cond t then { t with hold_expiry_time := x } else t := by
  intro t
  dsimp only
  by_cases hc : cond t
  · rw [if_pos hc]
    exact Or.inr (Or.inr (Or.inr (Or.inr ⟨x, rfl⟩)))
  · rw [if_neg hc]
    exact Or.inl rfl

theorem mem_of_forall₂_relSeat (now : Nat) :
    ∀ {l l' : List BookedSeat}, List.Forall₂ (relSeat now) l l' →
      ∀ x ∈ l', x ∈ l ∨ ∃ a : BookedSeat, x = a.release := by
  intro l l' h
  induction h with
  | nil => intro x hx; simp at hx
  | cons hab htail ih =>
    rename_i a b l1 l2
    intro x hx
    rcases List.mem_cons.mp hx with hx1 | hx1
    · rcases hab with h1 | ⟨_, h1⟩
      · exact Or.inl (by rw [hx1, h1]; exact List.mem_cons_self _ _)
      · exact Or.inr ⟨a, by rw [hx1, h1]⟩
    · rcases ih x hx1 with h1 | h1
      · exact Or.inl (List.mem_cons_of_mem a h1)
      · exact Or.inr h1

theorem invL_of_forall₂_relSeat (now : Nat) {l l' : List BookedSeat}
    (h : List.Forall₂ (relSeat now) l l') (hI : InvL l) : InvL l' := by
  constructor
  · intro st r c
    exact le_trans (countP_le_of_forall₂_relSeat now _
      (fun a => activeKey_release st r c a) h) (hI.1 st r c)
  · intro x hx hst
    rcases mem_of_forall₂_relSeat now h x hx with h1 | ⟨a, h1⟩
    · exact hI.2 x h1 hst
    · rw [h1]
      rfl

/-- `check_seats_availability` preserves the session invariant. -/
theorem invS_check (now st : Nat) (req : List (Nat × Nat)) (s : Sess)
    (h : InvS s) :
    InvS (check_seats_availability now st req s).2 := by
  obtain ⟨P1, P2, P3, _⟩ := check_spec now st req s
    (check_seats_availability now st req s).1
    (check_seats_availability now st req s).2 rfl h.2.1
  have hdraft : InvL (check_seats_availability now st req s).2.draft.seats :=
    invL_of_forall₂_relSeat now P2 h.2
  rcases P3 with h0 | h0
  · rw [h0]
    exact h
  · exact ⟨by rw [h0]; exact hdraft, hdraft⟩

theorem invS_refund_payment (pid : Nat) (s : Sess) (h : InvS s) :
    InvS (refund_payment pid s).2 := by
  unfold refund_payment
  dsimp only
  cases hp : get_payment (s.emit (.refundAttempt pid)).draft pid with
  | none => exact h
  | some p =>
    dsimp only
    by_cases h1 : p.status ≠ PayStatus.completed
    · rw [if_pos h1]
      exact h
    · rw [if_neg h1]
      exact ⟨h.2, h.2⟩

theorem invS_confirm_booking (now bid pid : Nat) (r : RemoteResult) (s : Sess)
    (h : InvS s) : InvS (confirm_booking now bid pid r s).2 := by
  unfold confirm_booking
  dsimp only
  cases hb : get_booking s.draft bid false with
  | none => exact h
  | some b =>
    dsimp only
    by_cases h1 : b.status ≠ BookingStatus.pending
    · rw [if_pos h1]
      exact h
    · rw [if_neg h1]
      cases hp : get_payment s.draft pid with
      | none => exact h
      | some p =>
        dsimp only
        by_cases h2 : p.status ≠ PayStatus.completed
        · rw [if_pos h2]
          exact h
        · rw [if_neg h2]
          cases r with
          | exn => exact ⟨h.1, h.1⟩
          | status code =>
            dsimp only
            by_cases h3 : 400 ≤ code
            · rw [if_pos h3]
              exact ⟨h.1, h.1⟩
            · rw [if_neg h3]
              have hd : InvL (s.draft.seats.map fun t =>
                  if ownedLive bid t = true then t.confirm now else t) :=
                invL_map now s.draft.seats _
                  (seatMut_ite_confirm now fun t => ownedLive bid t = true) h.2
              exact ⟨hd, hd⟩

theorem invL_applyCancel (bid : Nat) (db : DB) (h : InvL db.seats) :
    InvL (applyCancel db bid).seats := by
  have hd : InvL (db.seats.map fun t =>
      if ownedLive bid t = true then t.release else t) :=
    invL_map 0 db.seats _
      (seatMut_ite_release 0 fun t => ownedLive bid t = true) h
  exact hd

theorem invS_cancel_booking (bid : Nat) (r : RemoteResult) (s : Sess)
    (h : InvS s) : InvS (cancel_booking bid r s).2 := by
  unfold cancel_booking
  dsimp only
  cases hb : get_booking s.draft bid false with
  | none => exact h
  | some b =>
    dsimp only
    by_cases h1 : b.status = BookingStatus.cancelled
    · rw [if_pos h1]
      exact h
    · rw [if_neg h1]
      have h2 : InvS (({ s with draft := applyCancel s.draft bid } : Sess).emit
          (.theatrePost b.showtime_id
            (-(Int.ofNat (s.draft.seats.filter (ownedLive bid)).length)))) :=
        ⟨h.1, invL_applyCancel bid s.draft h.2⟩
      cases hpp : b.payment_id with
      | none => exact invS_commit h2
      | some pp => exact invS_commit (invS_refund_payment pp _ h2)

theorem invS_fail_booking (bid : Nat) (r : RemoteResult) (s : Sess)
    (h : InvS s) : InvS (fail_booking bid r s).2 := by
  unfold fail_booking
  dsimp only
  cases hb : get_booking s.draft bid false with
  | none => exact h
  | some b =>
    dsimp only
    by_cases h1 : b.status = BookingStatus.failed
    · rw [if_pos h1]
      exact h
    · rw [if_neg h1]
      have hd : InvL (s.draft.seats.map fun t =>
          if ownedLive bid t = true then t.release else t) :=
        invL_map 0 s.draft.seats _
          (seatMut_ite_release 0 fun t => ownedLive bid t = true) h.2
      exact ⟨hd, hd⟩

theorem invS_delete_booking (bid : Nat) (r : RemoteResult) (s : Sess)
    (h : InvS s) : InvS (delete_booking bid r s).2 := by
  unfold delete_booking
  dsimp only
  cases hb : get_booking s.draft bid true with
  | none => exact h
  | some b =>
    dsimp only
    by_cases h1 : b.is_deleted = true
    · rw [if_pos h1]
      exact h
    · rw [if_neg h1]
      have hd : InvL (s.draft.seats.map fun t =>
          if ownedLive bid t = true then t.release else t) :=
        invL_map 0 s.draft.seats _
          (seatMut_ite_release 0 fun t => ownedLive bid t = true) h.2
      exact ⟨hd, hd⟩

theorem invL_cancelIfPending (bid : Nat) (db : DB) (h : InvL db.seats) :
    InvL (cancelIfPending db bid).seats := by
  unfold cancelIfPending
  cases hb : db.bookings.find? fun b => decide (b.booking_id = bid) with
  | none => exact h
  | some b =>
    dsimp only
    by_cases h1 : b.status = BookingStatus.pending
    · rw [if_pos h1]
      exact invL_applyCancel bid db h
    · rw [if_neg h1]
      exact h

theorem invL_foldl_cancelIfPending :
    ∀ (bids : List Nat) (db : DB), InvL db.seats →
      InvL (bids.foldl cancelIfPending db).seats := by
  intro bids
  induction bids with
  | nil => intro db h; exact h
  | cons b bids ih =>
    intro db h
    exact ih (cancelIfPending db b) (invL_cancelIfPending b db h)

theorem invS_release_expired_holds (now : Nat) (s : Sess) (h : InvS s) :
    InvS (release_expired_holds now s).2 := by
  unfold release_expired_holds
  dsimp only
  have h1 : InvL (s.draft.seats.map fun t =>
      if expiredHold now t = true then t.release else t) :=
    invL_map 0 s.draft.seats _
      (seatMut_ite_release 0 fun t => expiredHold now t = true) h.2
  have h2 := invL_foldl_cancelIfPending
    ((s.draft.seats.filter (expiredHold now)).map (·.booking_id)).dedup
    { s.draft with seats := (s.draft.seats.map fun t =>
        if expiredHold now t = true then t.release else t) } h1
  exact ⟨h2, h2⟩

theorem invS_update_booking (now bid : Nat) (sa : Option BStatusArg)
    (pa : Option Nat) (r : RemoteResult) (s : Sess) (h : InvS s) :
    InvS (update_booking now bid sa pa r s).2 := by
  unfold update_booking
  dsimp only
  cases hb : get_booking s.draft bid false with
  | none => exact h
  | some b0 =>
    dsimp only
    cases pa with
    | none =>
      dsimp only
      cases sa with
      | none => exact invS_commit h
      | some arg =>
        cases arg with
        | invalid => exact h
        | valid st =>
          dsimp only
          by_cases h1 : st = BookingStatus.confirmed ∧ b0.status ≠ BookingStatus.confirmed
          · rw [if_pos h1]
            cases hbp : b0.payment_id with
            | none => exact h
            | some pid => exact invS_confirm_booking now bid pid r s h
          · rw [if_neg h1]
            by_cases h2 : st = BookingStatus.failed ∧ b0.status ≠ BookingStatus.failed
            · rw [if_pos h2]
              exact invS_fail_booking bid r s h
            · rw [if_neg h2]
              by_cases h3 : st = BookingStatus.cancelled ∧ b0.status ≠ BookingStatus.cancelled
              · rw [if_pos h3]
                exact invS_cancel_booking bid r s h
              · rw [if_neg h3]
                exact ⟨h.2, h.2⟩
    | some pid =>
      dsimp only
      have hs1 : InvS { s with draft := (mapBooking s.draft bid fun bb =>
          { bb with payment_id := some pid }) } := ⟨h.1, h.2⟩
      cases sa with
      | none => exact invS_commit hs1
      | some arg =>
        cases arg with
        | invalid => exact hs1
        | valid st =>
          dsimp only
          by_cases h1 : st = BookingStatus.confirmed ∧
              ({ b0 with payment_id := some pid } : Booking).status ≠ BookingStatus.confirmed
          · rw [if_pos h1]
            exact invS_confirm_booking now bid pid r _ hs1
          · rw [if_neg h1]
            by_cases h2 : st = BookingStatus.failed ∧
                ({ b0 with payment_id := some pid } : Booking).status ≠ BookingStatus.failed
            · rw [if_pos h2]
              exact invS_fail_booking bid r _ hs1
            · rw [if_neg h2]
              by_cases h3 : st = BookingStatus.cancelled ∧
                  ({ b0 with payment_id := some pid } : Booking).status ≠ BookingStatus.cancelled
              · rw [if_pos h3]
                exact invS_cancel_booking bid r _ hs1
              · rw [if_neg h3]
                exact ⟨hs1.2, hs1.2⟩

theorem invS_update_booked_seat (now sid : Nat) (sa : Option SStatusArg)
    (am : Option Nat) (s : Sess) (h : InvS s) :
    InvS (update_booked_seat now sid sa am s).2 := by
  unfold update_booked_seat
  dsimp only
  cases ht : get_booked_seat s.draft sid with
  | none => exact h
  | some t0 =>
    dsimp only
    have tail : ∀ (s' : Sess) (t1 : BookedSeat), InvS s' →
        InvS ((match am with
          | some m =>
            if t1.status ≠ SeatStatus.on_hold then (some Err.cannotExtend, s')
            else (none, Sess.commit { s' with draft :=
              (mapSeat s'.draft sid fun t =>
                { t with hold_expiry_time := some (now + m) }) })
          | none => (none, s'.commit) : Option Err × Sess)).2 := by
      intro s' t1 hs'
      cases am with
      | none => exact invS_commit hs'
      | some m =>
        dsimp only
        by_cases hm : t1.status ≠ SeatStatus.on_hold
        · rw [if_pos hm]
          exact hs'
        · rw [if_neg hm]
          have hd : InvL (s'.draft.seats.map fun t =>
              if t.booked_seat_id = sid then
                { t with hold_expiry_time := some (now + m) } else t) :=
            invL_map 0 s'.draft.seats _
              (seatMut_ite_expiry 0 (fun t => t.booked_seat_id = sid) _) hs'.2
          exact ⟨hd, hd⟩
    cases sa with
    | none => exact tail s t0 h
    | some arg =>
      cases arg with
      | invalid => exact h
      | valid st =>
        dsimp only
        by_cases h1 : st = SeatStatus.booked ∧ t0.status = SeatStatus.on_hold
        · rw [if_pos h1, if_pos h1]
          refine tail _ _ ⟨h.1, ?_⟩
          exact invL_map now s.draft.seats _
            (seatMut_ite_confirm now fun t => t.booked_seat_id = sid) h.2
        · rw [if_neg h1, if_neg h1]
          by_cases h2 : st = SeatStatus.released
          · rw [if_pos h2, if_pos h2]
            refine tail _ _ ⟨h.1, ?_⟩
            exact invL_map now s.draft.seats _
              (seatMut_ite_release now fun t => t.booked_seat_id = sid) h.2
          · rw [if_neg h2, if_neg h2]
            refine tail _ _ ⟨h.1, ?_⟩
            have hst : st = SeatStatus.on_hold ∨ st = SeatStatus.booked := by
              cases st with
              | on_hold => exact Or.inl rfl
              | booked => exact Or.inr rfl
              | released => exact absurd rfl h2
            exact invL_map now s.draft.seats _
              (seatMut_ite_status now (fun t => t.booked_seat_id = sid) st hst) h.2

theorem mkSeats_mem (bid st now : Nat) :
    ∀ (req : List (Nat × Nat)) (base : Nat) (x : BookedSeat),
      x ∈ mkSeats base bid st now req →
      x.booking_id = bid ∧ x.showtime_id = st ∧
        (x.seat_row, x.seat_col) ∈ req ∧ x.status = SeatStatus.on_hold ∧
        x.is_deleted = false := by
  intro req
  induction req with
  | nil => intro base x hx; simp [mkSeats] at hx
  | cons rc rest ih =>
    obtain ⟨r, c⟩ := rc
    intro base x hx
    simp only [mkSeats, List.mem_cons] at hx
    rcases hx with hx | hx
    · rw [hx]
      refine ⟨rfl, rfl, ?_, rfl, rfl⟩
      simp
    · obtain ⟨h1, h2, h3, h4, h5⟩ := ih (base + 1) x hx
      exact ⟨h1, h2, List.mem_cons_of_mem _ h3, h4, h5⟩

theorem uqOk_append_right :
    ∀ (l₁ l₂ : List BookedSeat), uqOk (l₁ ++ l₂) = true → uqOk l₂ = true := by
  intro l₁
  induction l₁ with
  | nil => intro l₂ h; simpa using h
  | cons t ts ih =>
    intro l₂ h
    simp only [List.cons_append, uqOk, Bool.and_eq_true] at h
    exact ih l₂ h.2

theorem uq_countP_le_one (q : BookedSeat → Bool) :
    ∀ (l : List BookedSeat), uqOk l = true →
      (∀ a ∈ l, ∀ b ∈ l, q a = true → q b = true →
        a.showtime_id = b.showtime_id ∧ a.seat_row = b.seat_row ∧
        a.seat_col = b.seat_col ∧ a.booking_id = b.booking_id) →
      l.countP q ≤ 1 := by
  intro l
  induction l with
  | nil => intro _ _; simp
  | cons t ts ih =>
    intro huq hq
    simp only [uqOk, Bool.and_eq_true] at huq
    obtain ⟨hall, huq2⟩ := huq
    rw [List.countP_cons]
    by_cases hqt : q t = true
    · have hz : ts.countP q = 0 := by
        refine List.countP_eq_zero.mpr fun u hu hqu => ?_
        have h4 := hq t (List.mem_cons_self _ _) u (List.mem_cons_of_mem _ hu)
          hqt hqu
        have h5 := List.all_eq_true.mp hall u hu
        simp only [Bool.not_eq_true', decide_eq_false_iff_not] at h5
        exact h5 h4
      rw [hz, if_pos hqt]
    · have hts := ih huq2 fun a ha b hb hqa hqb =>
        hq a (List.mem_cons_of_mem _ ha) b (List.mem_cons_of_mem _ hb) hqa hqb
      rw [if_neg hqt]
      omega

theorem invL_create_append (now st bid baseId : Nat) (req : List (Nat × Nat))
    (old : List BookedSeat) (hInv : InvL old)
    (hzero : ∀ rc ∈ req, old.countP (activeKey st rc.1 rc.2) = 0)
    (huq : uqOk (old ++ mkSeats baseId bid st now req) = true) :
    InvL (old ++ mkSeats baseId bid st now req) := by
  constructor
  · intro st' r' c'
    rw [List.countP_append]
    by_cases hk : st' = st ∧ (r', c') ∈ req
    · have hOld : old.countP (activeKey st' r' c') = 0 := by
        rw [hk.1]
        exact hzero (r', c') hk.2
      have hNew : (mkSeats baseId bid st now req).countP (activeKey st' r' c') ≤ 1 := by
        refine uq_countP_le_one _ _ (uqOk_append_right old _ huq) ?_
        intro a ha b hb hqa hqb
        obtain ⟨ha1, _, _, _, _⟩ := mkSeats_mem bid st now req baseId a ha
        obtain ⟨hb1, _, _, _, _⟩ := mkSeats_mem bid st now req baseId b hb
        simp only [activeKey, decide_eq_true_eq] at hqa hqb
        refine ⟨?_, ?_, ?_, ?_⟩
        · rw [hqa.2.2.1, hqb.2.2.1]
        · rw [hqa.2.2.2.1, hqb.2.2.2.1]
        · rw [hqa.2.2.2.2, hqb.2.2.2.2]
        · rw [ha1, hb1]
      omega
    · have hNew : (mkSeats baseId bid st now req).countP (activeKey st' r' c') = 0 := by
        refine List.countP_eq_zero.mpr fun x hx hqx => ?_
        obtain ⟨_, hst, hmemrc, _, _⟩ := mkSeats_mem bid st now req baseId x hx
        simp only [activeKey, decide_eq_true_eq] at hqx
        refine hk ⟨?_, ?_⟩
        · rw [← hqx.2.2.1, hst]
        · rw [← hqx.2.2.2.1, ← hqx.2.2.2.2]
          exact hmemrc
      have hOld := hInv.1 st' r' c'
      omega
  · intro x hx hst
    rcases List.mem_append.mp hx with hx | hx
    · exact hInv.2 x hx hst
    · obtain ⟨_, _, _, h4, _⟩ := mkSeats_mem bid st now req baseId x hx
      rw [h4] at hst
      cases hst

theorem invS_create_booking (now uid st : Nat) (req : List (Nat × Nat))
    (g : RemoteResult) (s : Sess) (h : InvS s) :
    InvS (create_booking now uid st req g s).2.2 := by
  unfold create_booking
  dsimp only
  cases g with
  | exn => exact h
  | status code =>
    dsimp only
    by_cases h1 : code = 404
    · rw [if_pos h1]
      exact h
    · rw [if_neg h1]
      by_cases h2 : 400 ≤ code
      · rw [if_pos h2]
        exact h
      · rw [if_neg h2]
        cases hchk : check_seats_availability now st req
            (s.emit (.theatreGet st)) with
        | mk conf s₁ =>
          obtain ⟨P1, P2, P3, P4, P5, P6⟩ :=
            check_spec now st req (s.emit (.theatreGet st)) conf s₁ hchk h.2.1
          have hs₁ : InvS s₁ := by
            have hdraft : InvL s₁.draft.seats :=
              invL_of_forall₂_relSeat now P2 h.2
            rcases P3 with h0 | h0
            · rw [h0]
              exact ⟨h.1, h.2⟩
            · exact ⟨by rw [h0]; exact hdraft, hdraft⟩
          cases conf with
          | some rc => exact hs₁
          | none =>
            dsimp only
            split
            next huq =>
              have hApp := invL_create_append now st (freshBookingId s₁.draft)
                _ req s₁.draft.seats hs₁.2 (P5 rfl) huq
              exact ⟨hApp, hApp⟩
            next huq => exact ⟨hs₁.1, hs₁.1⟩

/-- Database states reachable from the empty database through the service
operations, each run in a fresh per-request session whose result is the
committed snapshot. -/
inductive Reachable : DB → Prop where
  | empty : Reachable ⟨[], [], []⟩
  | step_create (now uid st : Nat) (req : List (Nat × Nat)) (g : RemoteResult)
      (db : DB) : Reachable db →
      Reachable (create_booking now uid st req g (Sess.init db)).2.2.committed
  | step_confirm (now bid pid : Nat) (r : RemoteResult) (db : DB) :
      Reachable db →
      Reachable (confirm_booking now bid pid r (Sess.init db)).2.committed
  | step_cancel (bid : Nat) (r : RemoteResult) (db : DB) : Reachable db →
      Reachable (cancel_booking bid r (Sess.init db)).2.committed
  | step_fail (bid : Nat) (r : RemoteResult) (db : DB) : Reachable db →
      Reachable (fail_booking bid r (Sess.init db)).2.committed
  | step_update (now bid : Nat) (sa : Option BStatusArg) (pa : Option Nat)
      (r : RemoteResult) (db : DB) : Reachable db →
      Reachable (update_booking now bid sa pa r (Sess.init db)).2.committed
  | step_delete (bid : Nat) (r : RemoteResult) (db : DB) : Reachable db →
      Reachable (delete_booking bid r (Sess.init db)).2.committed
  | step_release_expired (now : Nat) (db : DB) : Reachable db →
      Reachable (release_expired_holds now (Sess.init db)).2.committed
  | step_update_seat (now sid : Nat) (sa : Option SStatusArg)
      (am : Option Nat) (db : DB) : Reachable db →
      Reachable (update_booked_seat now sid sa am (Sess.init db)).2.committed

theorem inv_reachable : ∀ db : DB, Reachable db → InvL db.seats := by
  intro db h
  induction h with
  | empty =>
    constructor
    · intro st r c
      simp
    · intro t ht
      simp at ht
  | step_create now uid st req g db hdb ih =>
    exact (invS_create_booking now uid st req g (Sess.init db) ⟨ih, ih⟩).1
  | step_confirm now bid pid r db hdb ih =>
    exact (invS_confirm_booking now bid pid r (Sess.init db) ⟨ih, ih⟩).1
  | step_cancel bid r db hdb ih =>
    exact (invS_cancel_booking bid r (Sess.init db) ⟨ih, ih⟩).1
  | step_fail bid r db hdb ih =>
    exact (invS_fail_booking bid r (Sess.init db) ⟨ih, ih⟩).1
  | step_update now bid sa pa r db hdb ih =>
    exact (invS_update_booking now bid sa pa r (Sess.init db) ⟨ih, ih⟩).1
  | step_delete bid r db hdb ih =>
    exact (invS_delete_booking bid r (Sess.init db) ⟨ih, ih⟩).1
  | step_release_expired now db hdb ih =>
    exact (invS_release_expired_holds now (Sess.init db) ⟨ih, ih⟩).1
  | step_update_seat now sid sa am db hdb ih =>
    exact (invS_update_booked_seat now sid sa am (Sess.init db) ⟨ih, ih⟩).1

/-- C1: Seat-uniqueness invariant — in every database state reachable by the
service operations (create_booking, confirm_booking, cancel_booking,
fail_booking, update_booking, delete_booking, release_expired_holds,
update_booked_seat), for every (showtime_id, seat_row, seat_col) there is at
most one non-deleted seat record with status in {on_hold, booked}. -/
theorem c1_seat_uniqueness (db : DB) (h : Reachable db) : SeatUniq db :=
  (inv_reachable db h).1

/-- A concrete reachable state for the C1 witness: a booking for two seats
created against the empty database. -/
def dbWitnessC1 : DB :=
  (create_booking 0 7 3 [(2, 4), (2, 5)] (.status 200)
    (Sess.init ⟨[], [], []⟩)).2.2.committed

theorem c1_seat_uniqueness_witness : SeatUniq dbWitnessC1 :=
  c1_seat_uniqueness dbWitnessC1
    (Reachable.step_create 0 7 3 [(2, 4), (2, 5)] (.status 200) ⟨[], [], []⟩
      Reachable.empty)

/-- The failure condition of the remote capacity increment: a raised
request exception or an HTTP status ≥ 400. -/
def remoteFailed : RemoteResult → Bool
  | .exn => true
  | .status code => decide (400 ≤ code)

/-- C2: if the remote capacity increment fails during confirm_booking
(network error or status ≥ 400), confirm_booking returns an error and the
committed state is exactly the initial one — the booking stays `pending`,
no payment is linked and every seat hold is untouched. -/
theorem c2_confirm_no_partial (now bid pid : Nat) (r : RemoteResult) (db : DB)
    (hr : remoteFailed r = true) :
    (confirm_booking now bid pid r (Sess.init db)).1.isSome = true ∧
    (confirm_booking now bid pid r (Sess.init db)).2.committed = db := by
  unfold confirm_booking
  dsimp only [Sess.init]
  cases hb : get_booking db bid false with
  | none => exact ⟨rfl, rfl⟩
  | some b =>
    dsimp only
    by_cases h1 : b.status ≠ BookingStatus.pending
    · rw [if_pos h1]
      exact ⟨rfl, rfl⟩
    · rw [if_neg h1]
      cases hp : get_payment db pid with
      | none => exact ⟨rfl, rfl⟩
      | some p =>
        dsimp only
        by_cases h2 : p.status ≠ PayStatus.completed
        · rw [if_pos h2]
          exact ⟨rfl, rfl⟩
        · rw [if_neg h2]
          cases r with
          | exn => exact ⟨rfl, rfl⟩
          | status code =>
            dsimp only
            have h3 : 400 ≤ code := by
              simpa [remoteFailed] using hr
            rw [if_pos h3]
            exact ⟨rfl, rfl⟩

/-- A pending booking (id 1) with one held seat and a `pending` payment. -/
def dbPayPending : DB :=
  ⟨[⟨1, 7, 3, none, .pending, false⟩],
   [⟨1, 1, 3, 2, 4, .on_hold, some 20, false⟩],
   [⟨1, 5, .pending, false⟩]⟩

/-- A pending booking (id 1) with one held seat and a `completed` payment. -/
def dbPayCompleted : DB :=
  ⟨[⟨1, 7, 3, none, .pending, false⟩],
   [⟨1, 1, 3, 2, 4, .on_hold, some 20, false⟩],
   [⟨1, 5, .completed, false⟩]⟩

theorem c2_confirm_no_partial_witness :
    (confirm_booking 9 1 1 (.status 500) (Sess.init dbPayCompleted)).1.isSome = true ∧
    (confirm_booking 9 1 1 (.status 500) (Sess.init dbPayCompleted)).2.committed =
      dbPayCompleted :=
  c2_confirm_no_partial 9 1 1 (.status 500) dbPayCompleted (by decide)

/-- C3: a pending booking is confirmed only against an existing, non-deleted
payment with status `completed`; when the payment is missing or not
completed, confirm_booking fails with the `"Invalid or incomplete payment"`
error and commits nothing. -/
theorem c3_confirm_requires_completed_payment (now bid pid : Nat)
    (r : RemoteResult) (db : DB) (b : Booking)
    (hb : get_booking db bid false = some b)
    (hpend : b.status = BookingStatus.pending) :
    ((confirm_booking now bid pid r (Sess.init db)).1 = none →
      ∃ p, get_payment db pid = some p ∧ p.status = PayStatus.completed) ∧
    ((∀ p, get_payment db pid = some p → p.status ≠ PayStatus.completed) →
      (confirm_booking now bid pid r (Sess.init db)).1 = some .invalidPayment ∧
      (confirm_booking now bid pid r (Sess.init db)).2.committed = db) := by
  unfold confirm_booking
  dsimp only [Sess.init]
  rw [hb]
  dsimp only
  have h1 : ¬(b.status ≠ BookingStatus.pending) := by
    rw [hpend]
    simp
  rw [if_neg h1]
  cases hp : get_payment db pid with
  | none =>
    constructor
    · intro hcon
      simp at hcon
    · intro _
      exact ⟨rfl, rfl⟩
  | some p =>
    dsimp only
    by_cases h2 : p.status ≠ PayStatus.completed
    · rw [if_pos h2]
      constructor
      · intro hcon
        simp at hcon
      · intro _
        exact ⟨rfl, rfl⟩
    · rw [if_neg h2]
      constructor
      · intro _
        exact ⟨p, rfl, not_not.mp h2⟩
      · intro hno
        exact absurd (not_not.mp h2) (hno p rfl)

theorem c3_confirm_requires_completed_payment_witness :
    (confirm_booking 9 1 1 (.status 200) (Sess.init dbPayPending)).1 =
      some .invalidPayment ∧
    (confirm_booking 9 1 1 (.status 200) (Sess.init dbPayPending)).2.committed =
      dbPayPending :=
  (c3_confirm_requires_completed_payment 9 1 1 (.status 200) dbPayPending
    ⟨1, 7, 3, none, .pending, false⟩ rfl rfl).2
    (fun p hp => by
      have h0 : get_payment dbPayPending 1 = some ⟨1, 5, .pending, false⟩ := rfl
      rw [h0] at hp
      injection hp with h
      rw [← h]
      decide)

/-- C10: operations using the default-visibility lookup (confirm_booking,
cancel_booking, fail_booking, update_booking, create_payment) treat a
soft-deleted booking as absent: they fail with the `"Booking not found"`
error and leave the session untouched; only delete_booking looks up
including deleted rows and rejects an already-deleted booking with
`"Booking is already deleted"`, again changing nothing. -/
theorem c10_soft_deleted_invisible (now bid pid : Nat) (amount : Int)
    (sa : Option BStatusArg) (pa : Option Nat) (r : RemoteResult) (db : DB)
    (b : Booking) (hnone : get_booking db bid false = none)
    (hb : get_booking db bid true = some b) (hdel : b.is_deleted = true)
    (hamt : 0 < amount) :
    confirm_booking now bid pid r (Sess.init db) =
      (some .bookingNotFound, Sess.init db) ∧
    cancel_booking bid r (Sess.init db) =
      (some .bookingNotFound, Sess.init db) ∧
    fail_booking bid r (Sess.init db) =
      (some .bookingNotFound, Sess.init db) ∧
    update_booking now bid sa pa r (Sess.init db) =
      (some .bookingNotFound, Sess.init db) ∧
    create_payment amount bid (Sess.init db) =
      (none, some .bookingNotFound, Sess.init db) ∧
    delete_booking bid r (Sess.init db) =
      (some .alreadyDeleted, Sess.init db) := by
  refine ⟨?_, ?_, ?_, ?_, ?_, ?_⟩
  · unfold confirm_booking
    dsimp only [Sess.init]
    rw [hnone]
  · unfold cancel_booking
    dsimp only [Sess.init]
    rw [hnone]
  · unfold fail_booking
    dsimp only [Sess.init]
    rw [hnone]
  · unfold update_booking
    dsimp only [Sess.init]
    rw [hnone]
  · unfold create_payment
    dsimp only [Sess.init]
    rw [if_neg (not_le.mpr hamt), hnone]
  · unfold delete_booking
    dsimp only [Sess.init]
    rw [hb]
    dsimp only
    rw [if_pos hdel]

/-- A database whose only booking (id 1) is soft-deleted. -/
def dbDeleted : DB := ⟨[⟨1, 7, 3, none, .pending, true⟩], [], []⟩

theorem c10_soft_deleted_invisible_witness :
    confirm_booking 0 1 1 (.status 200) (Sess.init dbDeleted) =
      (some .bookingNotFound, Sess.init dbDeleted) ∧
    cancel_booking 1 (.status 200) (Sess.init dbDeleted) =
      (some .bookingNotFound, Sess.init dbDeleted) ∧
    fail_booking 1 (.status 200) (Sess.init dbDeleted) =
      (some .bookingNotFound, Sess.init dbDeleted) ∧
    update_booking 0 1 (some (.valid .confirmed)) (some 1) (.status 200)
        (Sess.init dbDeleted) =
      (some .bookingNotFound, Sess.init dbDeleted) ∧
    create_payment 5 1 (Sess.init dbDeleted) =
      (none, some .bookingNotFound, Sess.init dbDeleted) ∧
    delete_booking 1 (.status 200) (Sess.init dbDeleted) =
      (some .alreadyDeleted, Sess.init dbDeleted) :=
  c10_soft_deleted_invisible 0 1 1 5 (some (.valid .confirmed)) (some 1)
    (.status 200) dbDeleted ⟨1, 7, 3, none, .pending, true⟩ rfl rfl rfl
    (by decide)

theorem get_booking_mapBooking (db : DB) (bid bid' : Nat) (incl : Bool)
    (f : Booking → Booking) (hid : ∀ bb, (f bb).booking_id = bb.booking_id)
    (hdel : ∀ bb, (f bb).is_deleted = bb.is_deleted) :
    get_booking (mapBooking db bid' f) bid incl =
      (get_booking db bid incl).map
        fun bb => if bb.booking_id = bid' then f bb else bb := by
  unfold get_booking mapBooking
  dsimp only
  rw [List.find?_map]
  have hpg : ((fun b : Booking =>
      decide (b.booking_id = bid ∧ (incl = true ∨ b.is_deleted = false))) ∘
        fun bb => if bb.booking_id = bid' then f bb else bb) =
      fun b : Booking =>
        decide (b.booking_id = bid ∧ (incl = true ∨ b.is_deleted = false)) := by
    funext bb
    by_cases h : bb.booking_id = bid'
    · simp [h, hid bb, hdel bb]
    · simp [h]
  rw [hpg]

theorem refund_payment_frame (pid : Nat) (s : Sess) :
    (refund_payment pid s).2.draft.bookings = s.draft.bookings ∧
    (refund_payment pid s).2.draft.seats = s.draft.seats ∧
    ((refund_payment pid s).2.committed = s.committed ∨
      (refund_payment pid s).2.committed = (refund_payment pid s).2.draft) ∧
    (refund_payment pid s).2.trace = s.trace ++ [.refundAttempt pid] := by
  unfold refund_payment
  dsimp only [Sess.emit]
  cases hp : get_payment s.draft pid with
  | none => exact ⟨rfl, rfl, Or.inl rfl, rfl⟩
  | some p =>
    dsimp only
    by_cases h1 : p.status ≠ PayStatus.completed
    · rw [if_pos h1]
      exact ⟨rfl, rfl, Or.inl rfl, rfl⟩
    · rw [if_neg h1]
      exact ⟨rfl, rfl, Or.inr rfl, rfl⟩

/-- C7: cancelling a pending booking succeeds and, regardless of the remote
decrement outcome `r`, commits status `cancelled` and turns every owned
non-deleted seat hold into its released form (status `released`,
soft-deleted); a linked payment gets a refund attempt. -/
theorem c7_cancel_releases_all (bid : Nat) (r : RemoteResult) (db : DB)
    (b : Booking) (hb : get_booking db bid false = some b)
    (hpend : b.status = BookingStatus.pending) :
    (cancel_booking bid r (Sess.init db)).1 = none ∧
    get_booking (cancel_booking bid r (Sess.init db)).2.committed bid false =
      some { b with status := .cancelled } ∧
    (∀ t ∈ db.seats, t.booking_id = bid → t.is_deleted = false →
      t.release ∈ (cancel_booking bid r (Sess.init db)).2.committed.seats) ∧
    (∀ pp, b.payment_id = some pp →
      Event.refundAttempt pp ∈ (cancel_booking bid r (Sess.init db)).2.trace) := by
  have hbid : b.booking_id = bid := by
    have h0 := List.find?_some hb
    simp only [decide_eq_true_eq] at h0
    exact h0.1
  have hseatmem : ∀ t ∈ db.seats, t.booking_id = bid → t.is_deleted = false →
      t.release ∈ (applyCancel db bid).seats := by
    intro t ht h1 h2
    have hcond : ownedLive bid t = true := by
      simp [ownedLive, h1, h2]
    have h3 : (fun t : BookedSeat =>
        if ownedLive bid t = true then t.release else t) t = t.release := by
      dsimp only
      rw [if_pos hcond]
    rw [← h3]
    exact List.mem_map_of_mem _ ht
  have hlook : get_booking (applyCancel db bid) bid false =
      some { b with status := .cancelled } := by
    have h0 : get_booking (applyCancel db bid) bid false =
        get_booking (mapBooking db bid fun bb => { bb with status := .cancelled })
          bid false := rfl
    rw [h0, get_booking_mapBooking db bid bid false
      (fun bb => { bb with status := .cancelled })
      (fun bb => rfl) (fun bb => rfl), hb]
    simp [hbid]
  unfold cancel_booking
  dsimp only [Sess.init]
  rw [hb]
  dsimp only
  have h1 : ¬(b.status = BookingStatus.cancelled) := by
    rw [hpend]
    simp
  rw [if_neg h1]
  cases hpp : b.payment_id with
  | none =>
    dsimp only
    rw [hpp] at hlook
    refine ⟨rfl, hlook, fun t ht ha hd => hseatmem t ht ha hd, ?_⟩
    intro pp hpp'
    cases hpp'
  | some pp =>
    dsimp only
    rw [hpp] at hlook
    obtain ⟨F1, F2, _, F4⟩ := refund_payment_frame pp
      (({ committed := db, draft := applyCancel db bid, trace := [] } : Sess).emit
        (.theatrePost b.showtime_id
          (-Int.ofNat (db.seats.filter (ownedLive bid)).length)))
    refine ⟨rfl, ?_, ?_, ?_⟩
    · show get_booking (refund_payment pp _).2.draft bid false = _
      unfold get_booking at hlook ⊢
      rw [F1]
      exact hlook
    · intro t ht ha hd
      show t.release ∈ (refund_payment pp _).2.draft.seats
      rw [F2]
      exact hseatmem t ht ha hd
    · intro pq hpq
      injection hpq with hpq1
      show Event.refundAttempt pq ∈ (refund_payment pp _).2.trace
      rw [F4, hpq1]
      simp [Sess.emit]

/-- A booking id can only end up `confirmed` if it already was `confirmed`
(in draft or committed) or was `pending` in the draft. -/
def ConfSrc (s : Sess) (bid : Nat) : Prop :=
  (∃ b0, get_booking s.draft bid false = some b0 ∧
    (b0.status = BookingStatus.confirmed ∨ b0.status = BookingStatus.pending)) ∨
  (∃ b0, get_booking s.committed bid false = some b0 ∧
    b0.status = BookingStatus.confirmed)

theorem confSrc_confirm_booking (now bid' pid : Nat) (r : RemoteResult)
    (s : Sess) (bid : Nat) (b' : Booking)
    (h1 : get_booking (confirm_booking now bid' pid r s).2.committed bid false
            = some b' ∨
          get_booking (confirm_booking now bid' pid r s).2.draft bid false
            = some b')
    (h2 : b'.status = BookingStatus.confirmed) : ConfSrc s bid := by
  unfold confirm_booking at h1
  dsimp only at h1
  cases hgb : get_booking s.draft bid' false with
  | none =>
    rw [hgb] at h1
    rcases h1 with h1 | h1
    · exact Or.inr ⟨b', h1, h2⟩
    · exact Or.inl ⟨b', h1, Or.inl h2⟩
  | some bb =>
    rw [hgb] at h1
    dsimp only at h1
    by_cases hc1 : bb.status ≠ BookingStatus.pending
    · rw [if_pos hc1] at h1
      rcases h1 with h1 | h1
      · exact Or.inr ⟨b', h1, h2⟩
      · exact Or.inl ⟨b', h1, Or.inl h2⟩
    · rw [if_neg hc1] at h1
      cases hgp : get_payment s.draft pid with
      | none =>
        rw [hgp] at h1
        rcases h1 with h1 | h1
        · exact Or.inr ⟨b', h1, h2⟩
        · exact Or.inl ⟨b', h1, Or.inl h2⟩
      | some p =>
        rw [hgp] at h1
        dsimp only at h1
        by_cases hc2 : p.status ≠ PayStatus.completed
        · rw [if_pos hc2] at h1
          rcases h1 with h1 | h1
          · exact Or.inr ⟨b', h1, h2⟩
          · exact Or.inl ⟨b', h1, Or.inl h2⟩
        · rw [if_neg hc2] at h1
          cases r with
          | exn =>
            rcases h1 with h1 | h1 <;> exact Or.inr ⟨b', h1, h2⟩
          | status code =>
            dsimp only at h1
            by_cases hc3 : 400 ≤ code
            · rw [if_pos hc3] at h1
              rcases h1 with h1 | h1 <;> exact Or.inr ⟨b', h1, h2⟩
            · rw [if_neg hc3] at h1
              have h1' : get_booking (mapBooking s.draft bid' fun bb =>
                  { bb with payment_id := some pid,
                            status := BookingStatus.confirmed }) bid false
                  = some b' := by
                rcases h1 with h1 | h1 <;> exact h1
              have hmap := get_booking_mapBooking s.draft bid bid' false
                (fun bb => { bb with payment_id := some pid,
                                     status := BookingStatus.confirmed })
                (fun bb => rfl) (fun bb => rfl)
              rw [hmap] at h1'
              obtain ⟨b0, hb0, hgb0⟩ := Option.map_eq_some'.mp h1'
              by_cases hid : b0.booking_id = bid'
              · have hb0id : b0.booking_id = bid := by
                  have h3 := List.find?_some hb0
                  simp only [decide_eq_true_eq] at h3
                  exact h3.1
                have hbids : bid = bid' := by rw [← hb0id, hid]
                have hsame : get_booking s.draft bid' false = some b0 :=
                  hbids ▸ hb0
                rw [hgb] at hsame
                injection hsame with hsame1
                refine Or.inl ⟨b0, hb0, Or.inr ?_⟩
                rw [← hsame1]
                exact not_not.mp hc1
              · have hbe : b' = b0 := by
                  rw [← hgb0]
                  dsimp only
                  rw [if_neg hid]
                exact Or.inl ⟨b0, hb0, Or.inl (hbe ▸ h2)⟩

theorem confSrc_fail_booking (bid' : Nat) (r : RemoteResult) (s : Sess)
    (bid : Nat) (b' : Booking)
    (h1 : get_booking (fail_booking bid' r s).2.committed bid false = some b' ∨
          get_booking (fail_booking bid' r s).2.draft bid false = some b')
    (h2 : b'.status = BookingStatus.confirmed) : ConfSrc s bid := by
  unfold fail_booking at h1
  dsimp only at h1
  cases hgb : get_booking s.draft bid' false with
  | none =>
    rw [hgb] at h1
    rcases h1 with h1 | h1
    · exact Or.inr ⟨b', h1, h2⟩
    · exact Or.inl ⟨b', h1, Or.inl h2⟩
  | some bb =>
    rw [hgb] at h1
    dsimp only at h1
    by_cases hc1 : bb.status = BookingStatus.failed
    · rw [if_pos hc1] at h1
      rcases h1 with h1 | h1
      · exact Or.inr ⟨b', h1, h2⟩
      · exact Or.inl ⟨b', h1, Or.inl h2⟩
    · rw [if_neg hc1] at h1
      have h1' : get_booking (mapBooking s.draft bid' fun bb =>
          { bb with status := BookingStatus.failed }) bid false = some b' := by
        rcases h1 with h1 | h1 <;> exact h1
      have hmap := get_booking_mapBooking s.draft bid bid' false
        (fun bb => { bb with status := BookingStatus.failed })
        (fun bb => rfl) (fun bb => rfl)
      rw [hmap] at h1'
      obtain ⟨b0, hb0, hgb0⟩ := Option.map_eq_some'.mp h1'
      by_cases hid : b0.booking_id = bid'
      · exfalso
        rw [← hgb0] at h2
        dsimp only at h2
        rw [if_pos hid] at h2
        exact BookingStatus.noConfusion h2
      · have hbe : b' = b0 := by
          rw [← hgb0]
          dsimp only
          rw [if_neg hid]
        exact Or.inl ⟨b0, hb0, Or.inl (hbe ▸ h2)⟩

theorem confSrc_cancel_booking (bid' : Nat) (r : RemoteResult) (s : Sess)
    (bid : Nat) (b' : Booking)
    (h1 : get_booking (cancel_booking bid' r s).2.committed bid false = some b' ∨
          get_booking (cancel_booking bid' r s).2.draft bid false = some b')
    (h2 : b'.status = BookingStatus.confirmed) : ConfSrc s bid := by
  unfold cancel_booking at h1
  dsimp only at h1
  cases hgb : get_booking s.draft bid' false with
  | none =>
    rw [hgb] at h1
    rcases h1 with h1 | h1
    · exact Or.inr ⟨b', h1, h2⟩
    · exact Or.inl ⟨b', h1, Or.inl h2⟩
  | some bb =>
    rw [hgb] at h1
    dsimp only at h1
    by_cases hc1 : bb.status = BookingStatus.cancelled
    · rw [if_pos hc1] at h1
      rcases h1 with h1 | h1
      · exact Or.inr ⟨b', h1, h2⟩
      · exact Or.inl ⟨b', h1, Or.inl h2⟩
    · rw [if_neg hc1] at h1
      have h1' : get_booking (mapBooking s.draft bid' fun bb =>
          { bb with status := BookingStatus.cancelled }) bid false = some b' := by
        cases hpp : bb.payment_id with
        | none =>
          rw [hpp] at h1
          rcases h1 with h1 | h1 <;> exact h1
        | some pp =>
          rw [hpp] at h1
          dsimp only [Sess.commit] at h1
          obtain ⟨F1, _, _, _⟩ := refund_payment_frame pp
            (({ s with draft := applyCancel s.draft bid' } : Sess).emit
              (.theatrePost bb.showtime_id
                (-Int.ofNat (s.draft.seats.filter (ownedLive bid')).length)))
          rcases h1 with h1 | h1 <;>
            (unfold get_booking at h1 ⊢; rw [F1] at h1; exact h1)
      have hmap := get_booking_mapBooking s.draft bid bid' false
        (fun bb => { bb with status := BookingStatus.cancelled })
        (fun bb => rfl) (fun bb => rfl)
      rw [hmap] at h1'
      obtain ⟨b0, hb0, hgb0⟩ := Option.map_eq_some'.mp h1'
      by_cases hid : b0.booking_id = bid'
      · exfalso
        rw [← hgb0] at h2
        dsimp only at h2
        rw [if_pos hid] at h2
        exact BookingStatus.noConfusion h2
      · have hbe : b' = b0 := by
          rw [← hgb0]
          dsimp only
          rw [if_neg hid]
        exact Or.inl ⟨b0, hb0, Or.inl (hbe ▸ h2)⟩

theorem confSrc_flush (s : Sess) (bid bid' pid : Nat)
    (h : ConfSrc { s with draft := (mapBooking s.draft bid' fun bb =>
        { bb with payment_id := some pid }) } bid) : ConfSrc s bid := by
  rcases h with ⟨b0, hb0, hst⟩ | ⟨b0, hb0, hst⟩
  · have hmap := get_booking_mapBooking s.draft bid bid' false
      (fun bb => { bb with payment_id := some pid })
      (fun bb => rfl) (fun bb => rfl)
    have hb0' : get_booking (mapBooking s.draft bid' fun bb =>
        { bb with payment_id := some pid }) bid false = some b0 := hb0
    rw [hmap] at hb0'
    obtain ⟨b1, hb1, hgb1⟩ := Option.map_eq_some'.mp hb0'
    refine Or.inl ⟨b1, hb1, ?_⟩
    have hstEq : b0.status = b1.status := by
      rw [← hgb1]
      dsimp only
      by_cases hid : b1.booking_id = bid' <;> simp [hid]
    rw [hstEq] at hst
    exact hst
  · exact Or.inr ⟨b0, hb0, hst⟩

theorem confSrc_update_booking (now bid' : Nat) (sa : Option BStatusArg)
    (pa : Option Nat) (r : RemoteResult) (s : Sess) (bid : Nat) (b' : Booking)
    (h1 : get_booking (update_booking now bid' sa pa r s).2.committed bid false
            = some b' ∨
          get_booking (update_booking now bid' sa pa r s).2.draft bid false
            = some b')
    (h2 : b'.status = BookingStatus.confirmed) : ConfSrc s bid := by
  unfold update_booking at h1
  dsimp only at h1
  cases hgb : get_booking s.draft bid' false with
  | none =>
    rw [hgb] at h1
    rcases h1 with h1 | h1
    · exact Or.inr ⟨b', h1, h2⟩
    · exact Or.inl ⟨b', h1, Or.inl h2⟩
  | some b0arg =>
    rw [hgb] at h1
    dsimp only at h1
    cases pa with
    | none =>
      dsimp only at h1
      cases sa with
      | none =>
        dsimp only [Sess.commit] at h1
        rcases h1 with h1 | h1 <;> exact Or.inl ⟨b', h1, Or.inl h2⟩
      | some arg =>
        cases arg with
        | invalid =>
          dsimp only at h1
          rcases h1 with h1 | h1
          · exact Or.inr ⟨b', h1, h2⟩
          · exact Or.inl ⟨b', h1, Or.inl h2⟩
        | valid st =>
          dsimp only at h1
          by_cases hcond1 : st = BookingStatus.confirmed ∧
              b0arg.status ≠ BookingStatus.confirmed
          · rw [if_pos hcond1] at h1
            cases hbp : b0arg.payment_id with
            | none =>
              rw [hbp] at h1
              rcases h1 with h1 | h1
              · exact Or.inr ⟨b', h1, h2⟩
              · exact Or.inl ⟨b', h1, Or.inl h2⟩
            | some pid2 =>
              rw [hbp] at h1
              exact confSrc_confirm_booking now bid' pid2 r s bid b' h1 h2
          · rw [if_neg hcond1] at h1
            by_cases hcond2 : st = BookingStatus.failed ∧
                b0arg.status ≠ BookingStatus.failed
            · rw [if_pos hcond2] at h1
              exact confSrc_fail_booking bid' r s bid b' h1 h2
            · rw [if_neg hcond2] at h1
              by_cases hcond3 : st = BookingStatus.cancelled ∧
                  b0arg.status ≠ BookingStatus.cancelled
              · rw [if_pos hcond3] at h1
                exact confSrc_cancel_booking bid' r s bid b' h1 h2
              · rw [if_neg hcond3] at h1
                dsimp only [Sess.commit] at h1
                have h1' : get_booking (mapBooking s.draft bid' fun bb =>
                    { bb with status := st }) bid false = some b' := by
                  rcases h1 with h1 | h1 <;> exact h1
                have hmap := get_booking_mapBooking s.draft bid bid' false
                  (fun bb => { bb with status := st })
                  (fun bb => rfl) (fun bb => rfl)
                rw [hmap] at h1'
                obtain ⟨b0, hb0, hgb0⟩ := Option.map_eq_some'.mp h1'
                by_cases hid : b0.booking_id = bid'
                · have hst : st = BookingStatus.confirmed := by
                    rw [← hgb0] at h2
                    dsimp only at h2
                    rw [if_pos hid] at h2
                    exact h2
                  have hb0argc : b0arg.status = BookingStatus.confirmed := by
                    by_contra hx
                    exact hcond1 ⟨hst, hx⟩
                  have hb0id : b0.booking_id = bid := by
                    have h3 := List.find?_some hb0
                    simp only [decide_eq_true_eq] at h3
                    exact h3.1
                  have hbids : bid = bid' := by rw [← hb0id, hid]
                  have hsame : get_booking s.draft bid' false = some b0 :=
                    hbids ▸ hb0
                  rw [hgb] at hsame
                  injection hsame with e
                  refine Or.inl ⟨b0, hb0, Or.inl ?_⟩
                  rw [← e]
                  exact hb0argc
                · have hbe : b' = b0 := by
                    rw [← hgb0]
                    dsimp only
                    rw [if_neg hid]
                  exact Or.inl ⟨b0, hb0, Or.inl (hbe ▸ h2)⟩
    | some pid =>
      dsimp only at h1
      cases sa with
      | none =>
        dsimp only [Sess.commit] at h1
        refine confSrc_flush s bid bid' pid ?_
        rcases h1 with h1 | h1 <;> exact Or.inl ⟨b', h1, Or.inl h2⟩
      | some arg =>
        cases arg with
        | invalid =>
          dsimp only at h1
          refine confSrc_flush s bid bid' pid ?_
          rcases h1 with h1 | h1
          · exact Or.inr ⟨b', h1, h2⟩
          · exact Or.inl ⟨b', h1, Or.inl h2⟩
        | valid st =>
          dsimp only at h1
          by_cases hcond1 : st = BookingStatus.confirmed ∧
              b0arg.status ≠ BookingStatus.confirmed
          · rw [if_pos hcond1] at h1
            exact confSrc_flush s bid bid' pid
              (confSrc_confirm_booking now bid' pid r _ bid b' h1 h2)
          · rw [if_neg hcond1] at h1
            by_cases hcond2 : st = BookingStatus.failed ∧
                b0arg.status ≠ BookingStatus.failed
            · rw [if_pos hcond2] at h1
              exact confSrc_flush s bid bid' pid
                (confSrc_fail_booking bid' r _ bid b' h1 h2)
            · rw [if_neg hcond2] at h1
              by_cases hcond3 : st = BookingStatus.cancelled ∧
                  b0arg.status ≠ BookingStatus.cancelled
              · rw [if_pos hcond3] at h1
                exact confSrc_flush s bid bid' pid
                  (confSrc_cancel_booking bid' r _ bid b' h1 h2)
              · rw [if_neg hcond3] at h1
                dsimp only [Sess.commit] at h1
                refine confSrc_flush s bid bid' pid ?_
                have h1' : get_booking (mapBooking
                    (mapBooking s.draft bid' fun bb =>
                      { bb with payment_id := some pid }) bid' fun bb =>
                    { bb with status := st }) bid false = some b' := by
                  rcases h1 with h1 | h1 <;> exact h1
                have hmap := get_booking_mapBooking
                  (mapBooking s.draft bid' fun bb =>
                    { bb with payment_id := some pid }) bid bid' false
                  (fun bb => { bb with status := st })
                  (fun bb => rfl) (fun bb => rfl)
                rw [hmap] at h1'
                obtain ⟨b0, hb0, hgb0⟩ := Option.map_eq_some'.mp h1'
                by_cases hid : b0.booking_id = bid'
                · have hst : st = BookingStatus.confirmed := by
                    rw [← hgb0] at h2
                    dsimp only at h2
                    rw [if_pos hid] at h2
                    exact h2
                  have hb0argc : b0arg.status = BookingStatus.confirmed := by
                    by_contra hx
                    exact hcond1 ⟨hst, hx⟩
                  have hb0id : b0.booking_id = bid := by
                    have h3 := List.find?_some hb0
                    simp only [decide_eq_true_eq] at h3
                    exact h3.1
                  have hbids : bid = bid' := by rw [← hb0id, hid]
                  have hsame : get_booking (mapBooking s.draft bid' fun bb =>
                      { bb with payment_id := some pid }) bid' false = some b0 :=
                    hbids ▸ hb0
                  have hmap2 := get_booking_mapBooking s.draft bid' bid' false
                    (fun bb => { bb with payment_id := some pid })
                    (fun bb => rfl) (fun bb => rfl)
                  rw [hmap2, hgb] at hsame
                  have hb0argid : b0arg.booking_id = bid' := by
                    have h3 := List.find?_some hgb
                    simp only [decide_eq_true_eq] at h3
                    exact h3.1
                  simp only [Option.map_some] at hsame
                  injection hsame with e
                  refine Or.inl ⟨b0, hb0, Or.inl ?_⟩
                  rw [← e]
                  dsimp only
                  rw [if_pos hb0argid]
                  exact hb0argc
                · have hbe : b' = b0 := by
                    rw [← hgb0]
                    dsimp only
                    rw [if_neg hid]
                  exact Or.inl ⟨b0, hb0, Or.inl (hbe ▸ h2)⟩

theorem confSrc_process_payment (now pid2 : Nat) (r : RemoteResult) (s : Sess)
    (bid : Nat) (b' : Booking)
    (h1 : get_booking (process_payment now pid2 r s).2.committed bid false
            = some b' ∨
          get_booking (process_payment now pid2 r s).2.draft bid false
            = some b')
    (h2 : b'.status = BookingStatus.confirmed) : ConfSrc s bid := by
  unfold process_payment at h1
  dsimp only at h1
  cases hgp : get_payment s.draft pid2 with
  | none =>
    rw [hgp] at h1
    rcases h1 with h1 | h1
    · exact Or.inr ⟨b', h1, h2⟩
    · exact Or.inl ⟨b', h1, Or.inl h2⟩
  | some p =>
    rw [hgp] at h1
    dsimp only at h1
    by_cases hc1 : p.status ≠ PayStatus.pending
    · rw [if_pos hc1] at h1
      rcases h1 with h1 | h1
      · exact Or.inr ⟨b', h1, h2⟩
      · exact Or.inl ⟨b', h1, Or.inl h2⟩
    · rw [if_neg hc1] at h1
      cases hfb : (mapPayment s.draft pid2 fun q =>
          { q with status := PayStatus.completed }).bookings.find?
            (fun b => decide (b.payment_id = some pid2)) with
      | none =>
        rw [hfb] at h1
        dsimp only [Sess.commit] at h1
        rcases h1 with h1 | h1 <;> exact Or.inl ⟨b', h1, Or.inl h2⟩
      | some bk =>
        rw [hfb] at h1
        dsimp only at h1
        cases hupd : update_booking now bk.booking_id
            (some (.valid .confirmed)) (some pid2) r
            { s with draft := (mapPayment s.draft pid2 fun q =>
              { q with status := PayStatus.completed }) } with
        | mk res s' =>
          rw [hupd] at h1
          have htr : ConfSrc { s with
              draft := (mapPayment s.draft pid2 fun q =>
                { q with status := PayStatus.completed }) } bid → ConfSrc s bid := by
            intro hcs
            rcases hcs with ⟨b0, hb0, hst⟩ | ⟨b0, hb0, hst⟩
            · exact Or.inl ⟨b0, hb0, hst⟩
            · exact Or.inr ⟨b0, hb0, hst⟩
          cases res with
          | some e =>
            dsimp only [Sess.rollback] at h1
            have h1' : get_booking s'.committed bid false = some b' := by
              rcases h1 with h1 | h1 <;> exact h1
            exact htr (confSrc_update_booking now bk.booking_id
              (some (.valid .confirmed)) (some pid2) r _ bid b'
              (by rw [hupd]; exact Or.inl h1') h2)
          | none =>
            dsimp only [Sess.commit] at h1
            have h1' : get_booking s'.draft bid false = some b' := by
              rcases h1 with h1 | h1 <;> exact h1
            exact htr (confSrc_update_booking now bk.booking_id
              (some (.valid .confirmed)) (some pid2) r _ bid b'
              (by rw [hupd]; exact Or.inr h1') h2)

/-- A database whose only booking (id 1) is `cancelled` (not deleted). -/
def dbCancelled : DB := ⟨[⟨1, 7, 3, none, .cancelled, false⟩], [], []⟩

/-- C4 counterexample: the claim "no operation transitions a cancelled or
failed booking back to 'pending' or to 'confirmed'" is false as stated —
`update_booking(booking_id, status='pending')` on a cancelled booking takes
the generic status-assignment branch, succeeds, and commits the booking back
to `pending`. -/
theorem c4_counterexample_resurrect_pending :
    dbCancelled.bookings.map Booking.status = [BookingStatus.cancelled] ∧
    (update_booking 0 1 (some (.valid .pending)) none (.status 200)
      (Sess.init dbCancelled)).1 = none ∧
    (update_booking 0 1 (some (.valid .pending)) none (.status 200)
      (Sess.init dbCancelled)).2.committed.bookings.map Booking.status =
      [BookingStatus.pending] := by
  exact ⟨rfl, rfl, rfl⟩

/-- C4 (amended): a booking whose status is `cancelled` or `failed` is never
transitioned to `confirmed` — by confirm_booking, by update_booking with any
combination of status and payment arguments, or by process_payment; however
(unlike the original claim) `update_booking(status='pending')` can set such a
booking back to `pending`, as the counterexample shows. -/
theorem c4_terminal_never_confirmed (now bid bidT pid pid2 : Nat)
    (sa : Option BStatusArg) (pa : Option Nat) (r : RemoteResult) (db : DB)
    (b : Booking) (hb : get_booking db bid false = some b)
    (hterm : b.status = BookingStatus.cancelled ∨
      b.status = BookingStatus.failed) :
    (∀ b', get_booking (confirm_booking now bidT pid r (Sess.init db)).2.committed
        bid false = some b' → b'.status ≠ BookingStatus.confirmed) ∧
    (∀ b', get_booking (update_booking now bidT sa pa r (Sess.init db)).2.committed
        bid false = some b' → b'.status ≠ BookingStatus.confirmed) ∧
    (∀ b', get_booking (process_payment now pid2 r (Sess.init db)).2.committed
        bid false = some b' → b'.status ≠ BookingStatus.confirmed) := by
  have hnotsrc : ¬ ConfSrc (Sess.init db) bid := by
    rintro (⟨b0, hb0, hst⟩ | ⟨b0, hb0, hst⟩) <;>
    · have hb0' : get_booking db bid false = some b0 := hb0
      rw [hb] at hb0'
      injection hb0' with e
      rw [← e] at hst
      rcases hterm with ht | ht <;>
        first
        | (rcases hst with hs | hs <;> rw [ht] at hs <;> cases hs)
        | (rw [ht] at hst; cases hst)
  refine ⟨?_, ?_, ?_⟩
  · intro b' hlk hcstat
    exact hnotsrc (confSrc_confirm_booking now bidT pid r (Sess.init db) bid b'
      (Or.inl hlk) hcstat)
  · intro b' hlk hcstat
    exact hnotsrc (confSrc_update_booking now bidT sa pa r (Sess.init db) bid b'
      (Or.inl hlk) hcstat)
  · intro b' hlk hcstat
    exact hnotsrc (confSrc_process_payment now pid2 r (Sess.init db) bid b'
      (Or.inl hlk) hcstat)

theorem c4_terminal_never_confirmed_witness :
    (∀ b', get_booking (confirm_booking 0 1 1 (.status 200)
        (Sess.init dbCancelled)).2.committed 1 false = some b' →
      b'.status ≠ BookingStatus.confirmed) ∧
    (∀ b', get_booking (update_booking 0 1 (some (.valid .confirmed)) (some 1)
        (.status 200) (Sess.init dbCancelled)).2.committed 1 false = some b' →
      b'.status ≠ BookingStatus.confirmed) ∧
    (∀ b', get_booking (process_payment 0 1 (.status 200)
        (Sess.init dbCancelled)).2.committed 1 false = some b' →
      b'.status ≠ BookingStatus.confirmed) :=
  c4_terminal_never_confirmed 0 1 1 1 1 (some (.valid .confirmed)) (some 1)
    (.status 200) dbCancelled ⟨1, 7, 3, none, .cancelled, false⟩ rfl
    (Or.inl rfl)

theorem get_payment_mapPayment (db : DB) (pid pid' : Nat)
    (f : Payment → Payment) (hid : ∀ q, (f q).payment_id = q.payment_id)
    (hdel : ∀ q, (f q).is_deleted = q.is_deleted) :
    get_payment (mapPayment db pid' f) pid =
      (get_payment db pid).map
        fun q => if q.payment_id = pid' then f q else q := by
  unfold get_payment mapPayment
  dsimp only
  rw [List.find?_map]
  have hpg : ((fun q : Payment =>
      decide (q.payment_id = pid ∧ q.is_deleted = false)) ∘
        fun q => if q.payment_id = pid' then f q else q) =
      fun q : Payment =>
        decide (q.payment_id = pid ∧ q.is_deleted = false) := by
    funext q
    by_cases h : q.payment_id = pid'
    · simp [h, hid q, hdel q]
    · simp [h]
  rw [hpg]

theorem confirm_booking_ok (now bid pid : Nat) (r : RemoteResult) (s s' : Sess)
    (h : confirm_booking now bid pid r s = (none, s')) :
    s'.committed = s'.draft ∧
    (∃ b', get_booking s'.draft bid false = some b' ∧
      b'.status = BookingStatus.confirmed) ∧
    s'.draft.payments = s.draft.payments := by
  unfold confirm_booking at h
  dsimp only at h
  cases hgb : get_booking s.draft bid false with
  | none =>
    rw [hgb] at h
    simp at h
  | some b =>
    rw [hgb] at h
    dsimp only at h
    by_cases hc1 : b.status ≠ BookingStatus.pending
    · rw [if_pos hc1] at h
      simp at h
    · rw [if_neg hc1] at h
      cases hgp : get_payment s.draft pid with
      | none =>
        rw [hgp] at h
        simp at h
      | some p =>
        rw [hgp] at h
        dsimp only at h
        by_cases hc2 : p.status ≠ PayStatus.completed
        · rw [if_pos hc2] at h
          simp at h
        · rw [if_neg hc2] at h
          cases r with
          | exn => simp at h
          | status code =>
            dsimp only at h
            by_cases hc3 : 400 ≤ code
            · rw [if_pos hc3] at h
              simp at h
            · rw [if_neg hc3] at h
              injection h with h1 h2
              rw [← h2]
              have hb0id : b.booking_id = bid := by
                have h3 := List.find?_some hgb
                simp only [decide_eq_true_eq] at h3
                exact h3.1
              refine ⟨rfl, ?_, rfl⟩
              have hmap := get_booking_mapBooking s.draft bid bid false
                (fun bb => { bb with payment_id := some pid, status := BookingStatus.confirmed })
                (fun bb => rfl) (fun bb => rfl)
              refine ⟨{ b with payment_id := some pid, status := BookingStatus.confirmed }, ?_, rfl⟩
              show get_booking (mapBooking s.draft bid
                (fun bb => { bb with payment_id := some pid, status := BookingStatus.confirmed })) bid false = _
              rw [hmap, hgb]
              simp [hb0id]

theorem update_booking_ok_confirmed (now bid pid : Nat) (r : RemoteResult)
    (s s' : Sess)
    (h : update_booking now bid (some (.valid .confirmed)) (some pid) r s =
      (none, s')) :
    s'.committed = s'.draft ∧
    (∃ b', get_booking s'.draft bid false = some b' ∧
      b'.status = BookingStatus.confirmed) ∧
    s'.draft.payments = s.draft.payments := by
  unfold update_booking at h
  dsimp only at h
  cases hgb : get_booking s.draft bid false with
  | none =>
    rw [hgb] at h
    simp at h
  | some b0 =>
    rw [hgb] at h
    dsimp only at h
    have hb0id : b0.booking_id = bid := by
      have h3 := List.find?_some hgb
      simp only [decide_eq_true_eq] at h3
      exact h3.1
    by_cases hbc : b0.status = BookingStatus.confirmed
    · have hcond1 : ¬(BookingStatus.confirmed = BookingStatus.confirmed ∧
          b0.status ≠ BookingStatus.confirmed) := by
        rintro ⟨_, hx⟩
        exact hx hbc
      rw [if_neg hcond1] at h
      have hcond2 : ¬(BookingStatus.confirmed = BookingStatus.failed ∧
          b0.status ≠ BookingStatus.failed) := by
        rintro ⟨hx, _⟩
        cases hx
      rw [if_neg hcond2] at h
      have hcond3 : ¬(BookingStatus.confirmed = BookingStatus.cancelled ∧
          b0.status ≠ BookingStatus.cancelled) := by
        rintro ⟨hx, _⟩
        cases hx
      rw [if_neg hcond3] at h
      injection h with h1 h2
      rw [← h2]
      refine ⟨rfl, ?_, rfl⟩
      have hmap1 := get_booking_mapBooking s.draft bid bid false
        (fun bb => { bb with payment_id := some pid })
        (fun bb => rfl) (fun bb => rfl)
      have hmap2 := get_booking_mapBooking
        (mapBooking s.draft bid fun bb => { bb with payment_id := some pid })
        bid bid false (fun bb => { bb with status := BookingStatus.confirmed })
        (fun bb => rfl) (fun bb => rfl)
      refine ⟨{ b0 with payment_id := some pid, status := BookingStatus.confirmed }, ?_, rfl⟩
      show get_booking (mapBooking
        (mapBooking s.draft bid (fun bb => { bb with payment_id := some pid }))
        bid (fun bb => { bb with status := BookingStatus.confirmed }))
        bid false = _
      rw [hmap2, hmap1, hgb]
      simp [hb0id]
    · have hcond1 : BookingStatus.confirmed = BookingStatus.confirmed ∧
          b0.status ≠ BookingStatus.confirmed := ⟨rfl, hbc⟩
      rw [if_pos hcond1] at h
      obtain ⟨k1, ⟨b', hb', hbst⟩, k3⟩ := confirm_booking_ok now bid pid r _ s' h
      exact ⟨k1, ⟨b', hb', hbst⟩, k3⟩

theorem confirm_booking_err (now bid pid : Nat) (r : RemoteResult)
    (s : Sess) (e : Err) (s' : Sess)
    (h : confirm_booking now bid pid r s = (some e, s')) :
    s'.committed = s.committed := by
  unfold confirm_booking at h
  dsimp only at h
  cases hgb : get_booking s.draft bid false with
  | none =>
    rw [hgb] at h
    injection h with h1 h2
    rw [← h2]
  | some b =>
    rw [hgb] at h
    dsimp only at h
    by_cases hc1 : b.status ≠ BookingStatus.pending
    · rw [if_pos hc1] at h
      injection h with h1 h2
      rw [← h2]
    · rw [if_neg hc1] at h
      cases hgp : get_payment s.draft pid with
      | none =>
        rw [hgp] at h
        injection h with h1 h2
        rw [← h2]
      | some p =>
        rw [hgp] at h
        dsimp only at h
        by_cases hc2 : p.status ≠ PayStatus.completed
        · rw [if_pos hc2] at h
          injection h with h1 h2
          rw [← h2]
        · rw [if_neg hc2] at h
          cases r with
          | exn =>
            injection h with h1 h2
            rw [← h2]
            rfl
          | status code =>
            dsimp only at h
            by_cases hc3 : 400 ≤ code
            · rw [if_pos hc3] at h
              injection h with h1 h2
              rw [← h2]
              rfl
            · rw [if_neg hc3] at h
              simp at h

theorem fail_booking_err (bid : Nat) (r : RemoteResult) (s : Sess) (e : Err)
    (s' : Sess) (h : fail_booking bid r s = (some e, s')) :
    s'.committed = s.committed := by
  unfold fail_booking at h
  dsimp only at h
  cases hgb : get_booking s.draft bid false with
  | none =>
    rw [hgb] at h
    injection h with h1 h2
    rw [← h2]
  | some b =>
    rw [hgb] at h
    dsimp only at h
    by_cases hc1 : b.status = BookingStatus.failed
    · rw [if_pos hc1] at h
      injection h with h1 h2
      rw [← h2]
    · rw [if_neg hc1] at h
      simp at h

theorem cancel_booking_err (bid : Nat) (r : RemoteResult) (s : Sess) (e : Err)
    (s' : Sess) (h : cancel_booking bid r s = (some e, s')) :
    s'.committed = s.committed := by
  unfold cancel_booking at h
  dsimp only at h
  cases hgb : get_booking s.draft bid false with
  | none =>
    rw [hgb] at h
    injection h with h1 h2
    rw [← h2]
  | some b =>
    rw [hgb] at h
    dsimp only at h
    by_cases hc1 : b.status = BookingStatus.cancelled
    · rw [if_pos hc1] at h
      injection h with h1 h2
      rw [← h2]
    · rw [if_neg hc1] at h
      cases hpp : b.payment_id with
      | none =>
        rw [hpp] at h
        simp at h
      | some pp =>
        rw [hpp] at h
        simp at h

theorem update_booking_err (now bid : Nat) (sa : Option BStatusArg)
    (pa : Option Nat) (r : RemoteResult) (s : Sess) (e : Err) (s' : Sess)
    (h : update_booking now bid sa pa r s = (some e, s')) :
    s'.committed = s.committed := by
  unfold update_booking at h
  dsimp only at h
  cases hgb : get_booking s.draft bid false with
  | none =>
    rw [hgb] at h
    injection h with h1 h2
    rw [← h2]
  | some b0 =>
    rw [hgb] at h
    dsimp only at h
    cases pa with
    | none =>
      dsimp only at h
      cases sa with
      | none => simp at h
      | some arg =>
        cases arg with
        | invalid =>
          injection h with h1 h2
          rw [← h2]
        | valid st =>
          dsimp only at h
          by_cases hcond1 : st = BookingStatus.confirmed ∧
              b0.status ≠ BookingStatus.confirmed
          · rw [if_pos hcond1] at h
            cases hbp : b0.payment_id with
            | none =>
              rw [hbp] at h
              injection h with h1 h2
              rw [← h2]
            | some pid2 =>
              rw [hbp] at h
              exact confirm_booking_err now bid pid2 r s e s' h
          · rw [if_neg hcond1] at h
            by_cases hcond2 : st = BookingStatus.failed ∧
                b0.status ≠ BookingStatus.failed
            · rw [if_pos hcond2] at h
              exact fail_booking_err bid r s e s' h
            · rw [if_neg hcond2] at h
              by_cases hcond3 : st = BookingStatus.cancelled ∧
                  b0.status ≠ BookingStatus.cancelled
              · rw [if_pos hcond3] at h
                exact cancel_booking_err bid r s e s' h
              · rw [if_neg hcond3] at h
                simp at h
    | some pid =>
      dsimp only at h
      cases sa with
      | none => simp at h
      | some arg =>
        cases arg with
        | invalid =>
          injection h with h1 h2
          rw [← h2]
        | valid st =>
          dsimp only at h
          by_cases hcond1 : st = BookingStatus.confirmed ∧
              b0.status ≠ BookingStatus.confirmed
          · rw [if_pos hcond1] at h
            exact confirm_booking_err now bid pid r
              { s with draft := (mapBooking s.draft bid fun bb =>
                  { bb with payment_id := some pid }) } e s' h
          · rw [if_neg hcond1] at h
            by_cases hcond2 : st = BookingStatus.failed ∧
                b0.status ≠ BookingStatus.failed
            · rw [if_pos hcond2] at h
              exact fail_booking_err bid r
                { s with draft := (mapBooking s.draft bid fun bb =>
                    { bb with payment_id := some pid }) } e s' h
            · rw [if_neg hcond2] at h
              by_cases hcond3 : st = BookingStatus.cancelled ∧
                  b0.status ≠ BookingStatus.cancelled
              · rw [if_pos hcond3] at h
                exact cancel_booking_err bid r
                  { s with draft := (mapBooking s.draft bid fun bb =>
                      { bb with payment_id := some pid }) } e s' h
              · rw [if_neg hcond3] at h
                simp at h

/-- C5: process_payment is atomic with respect to payment completion and
booking confirmation.  If it fails for any reason the committed state is
exactly the initial one (the payment stays `pending` — the completion is
rolled back); if it succeeds and a booking is linked to the payment, the
committed state has that booking `confirmed` and the payment `completed`. -/
theorem c5_process_payment_atomic (now pid : Nat) (r : RemoteResult) (db : DB) :
    (∀ e s', process_payment now pid r (Sess.init db) = (some e, s') →
      s'.committed = db) ∧
    (∀ s' bk, process_payment now pid r (Sess.init db) = (none, s') →
      db.bookings.find? (fun b => decide (b.payment_id = some pid)) = some bk →
      (∃ b', get_booking s'.committed bk.booking_id false = some b' ∧
        b'.status = BookingStatus.confirmed) ∧
      (∃ q, get_payment s'.committed pid = some q ∧
        q.status = PayStatus.completed)) := by
  constructor
  · intro e s' h
    unfold process_payment at h
    dsimp only [Sess.init] at h
    cases hgp : get_payment db pid with
    | none =>
      rw [hgp] at h
      injection h with h1 h2
      rw [← h2]
    | some p =>
      rw [hgp] at h
      dsimp only at h
      by_cases hc1 : p.status ≠ PayStatus.pending
      · rw [if_pos hc1] at h
        injection h with h1 h2
        rw [← h2]
      · rw [if_neg hc1] at h
        cases hfb : (mapPayment db pid fun q =>
            { q with status := PayStatus.completed }).bookings.find?
              (fun b => decide (b.payment_id = some pid)) with
        | none =>
          rw [hfb] at h
          simp at h
        | some bk =>
          rw [hfb] at h
          dsimp only at h
          cases hupd : update_booking now bk.booking_id
              (some (.valid .confirmed)) (some pid) r
              ⟨db, mapPayment db pid fun q =>
                { q with status := PayStatus.completed }, []⟩ with
          | mk res s₁ =>
            rw [hupd] at h
            cases res with
            | some e2 =>
              dsimp only at h
              injection h with h1 h2
              rw [← h2]
              show s₁.committed = db
              exact update_booking_err now bk.booking_id _ _ r _ e2 s₁ hupd
            | none =>
              dsimp only at h
              simp at h
  · intro s' bk h hfind
    unfold process_payment at h
    dsimp only [Sess.init] at h
    cases hgp : get_payment db pid with
    | none =>
      rw [hgp] at h
      simp at h
    | some p =>
      rw [hgp] at h
      dsimp only at h
      have hpid : p.payment_id = pid := by
        have h3 := List.find?_some hgp
        simp only [decide_eq_true_eq] at h3
        exact h3.1
      by_cases hc1 : p.status ≠ PayStatus.pending
      · rw [if_pos hc1] at h
        simp at h
      · rw [if_neg hc1] at h
        cases hfb : (mapPayment db pid fun q =>
            { q with status := PayStatus.completed }).bookings.find?
              (fun b => decide (b.payment_id = some pid)) with
        | none =>
          have hfind' : (mapPayment db pid fun q =>
              { q with status := PayStatus.completed }).bookings.find?
                (fun b => decide (b.payment_id = some pid)) = some bk := hfind
          rw [hfb] at hfind'
          cases hfind'
        | some bk2 =>
          have hbk : bk2 = bk := by
            have h9 : some bk2 = some bk := by
              rw [← hfb]
              exact hfind
            exact Option.some.inj h9
          rw [hfb] at h
          dsimp only at h
          cases hupd : update_booking now bk2.booking_id
              (some (.valid .confirmed)) (some pid) r
              ⟨db, mapPayment db pid fun q =>
                { q with status := PayStatus.completed }, []⟩ with
          | mk res s₁ =>
            rw [hupd] at h
            cases res with
            | some e2 =>
              dsimp only at h
              simp at h
            | none =>
              dsimp only at h
              injection h with h1 h2
              obtain ⟨k1, ⟨b', hb', hbst⟩, k3⟩ :=
                update_booking_ok_confirmed now bk2.booking_id pid r _ s₁ hupd
              constructor
              · refine ⟨b', ?_, hbst⟩
                rw [← h2, ← hbk]
                exact hb'
              · have hq := get_payment_mapPayment db pid pid
                  (fun q => { q with status := PayStatus.completed })
                  (fun q => rfl) (fun q => rfl)
                rw [hgp] at hq
                have hq2 : get_payment (mapPayment db pid fun q =>
                    { q with status := PayStatus.completed }) pid =
                    some { p with status := PayStatus.completed } := by
                  rw [hq]
                  simp [hpid]
                refine ⟨{ p with status := PayStatus.completed }, ?_, rfl⟩
                rw [← h2]
                show get_payment s₁.draft pid = _
                unfold get_payment
                rw [k3]
                unfold get_payment at hq2
                exact hq2

/-- A pending booking linked (payment_id) to a pending payment. -/
def dbLinkedPayPending : DB :=
  ⟨[⟨1, 7, 3, some 1, .pending, false⟩],
   [⟨1, 1, 3, 2, 4, .on_hold, some 20, false⟩],
   [⟨1, 5, .pending, false⟩]⟩

theorem c5_process_payment_atomic_witness :
    (process_payment 9 1 .exn (Sess.init dbLinkedPayPending)).2.committed =
      dbLinkedPayPending ∧
    (∃ b', get_booking (process_payment 9 1 (.status 200)
        (Sess.init dbLinkedPayPending)).2.committed 1 false = some b' ∧
      b'.status = BookingStatus.confirmed) ∧
    (∃ q, get_payment (process_payment 9 1 (.status 200)
        (Sess.init dbLinkedPayPending)).2.committed 1 = some q ∧
      q.status = PayStatus.completed) :=
  ⟨(c5_process_payment_atomic 9 1 .exn dbLinkedPayPending).1
      (.confirmFailed .theatreUnavailable) _ (by decide),
   (c5_process_payment_atomic 9 1 (.status 200) dbLinkedPayPending).2 _
      ⟨1, 7, 3, some 1, .pending, false⟩ (by decide) (by decide)⟩

/-- A pending booking linked to a `completed` payment, with one held seat. -/
def dbLinkedCompleted : DB :=
  ⟨[⟨1, 7, 3, some 1, .pending, false⟩],
   [⟨1, 1, 3, 2, 4, .on_hold, some 20, false⟩],
   [⟨1, 5, .completed, false⟩]⟩

theorem c7_cancel_releases_all_witness :
    (cancel_booking 1 .exn (Sess.init dbLinkedCompleted)).1 = none ∧
    get_booking (cancel_booking 1 .exn
        (Sess.init dbLinkedCompleted)).2.committed 1 false =
      some ⟨1, 7, 3, some 1, .cancelled, false⟩ ∧
    (∀ t ∈ dbLinkedCompleted.seats, t.booking_id = 1 → t.is_deleted = false →
      t.release ∈ (cancel_booking 1 .exn
        (Sess.init dbLinkedCompleted)).2.committed.seats) ∧
    (∀ pp, (some 1 : Option Nat) = some pp →
      Event.refundAttempt pp ∈ (cancel_booking 1 .exn
        (Sess.init dbLinkedCompleted)).2.trace) :=
  c7_cancel_releases_all 1 .exn dbLinkedCompleted
    ⟨1, 7, 3, some 1, .pending, false⟩ rfl rfl

/-- A lone `pending` payment (id 1). -/
def dbOnePendingPayment : DB := ⟨[], [], [⟨1, 5, .pending, false⟩]⟩

/-- C6 counterexample: the claim that "any operation attempting to make a
non-completed payment 'refunded' (including status changes through
update_payment) fails with a not-refundable error" is false —
`update_payment(status='refunded')` on a `pending` payment succeeds and
commits status `refunded` with no completed-check. -/
theorem c6_counterexample_update_payment_refunds :
    dbOnePendingPayment.payments.map Payment.status = [PayStatus.pending] ∧
    (update_payment 1 none (some (.valid .refunded))
      (Sess.init dbOnePendingPayment)).1 = none ∧
    (update_payment 1 none (some (.valid .refunded))
      (Sess.init dbOnePendingPayment)).2.committed.payments.map Payment.status =
      [PayStatus.refunded] := by
  exact ⟨rfl, rfl, rfl⟩

/-- C6 (amended): `refund_payment` transitions a payment to `refunded` only
from `completed` — for any payment that exists and is not `completed` it
fails with the `"Only completed payments can be refunded"` error and commits
nothing; `update_payment`, however, sets any requested valid status
(including `refunded`) regardless of the current status, as the
counterexample shows — so the `update_payment` half of the original claim is
dropped and replaced by what the code does. -/
theorem c6_refund_only_from_completed (pid : Nat) (st : PayStatus) (db : DB)
    (p : Payment) (hp : get_payment db pid = some p)
    (hnc : p.status ≠ PayStatus.completed) :
    ((refund_payment pid (Sess.init db)).1 = some .notRefundable ∧
      (refund_payment pid (Sess.init db)).2.committed = db) ∧
    ((update_payment pid none (some (.valid st)) (Sess.init db)).1 = none ∧
      ∃ q, get_payment (update_payment pid none (some (.valid st))
        (Sess.init db)).2.committed pid = some q ∧ q.status = st) := by
  have hpid : p.payment_id = pid := by
    have h3 := List.find?_some hp
    simp only [decide_eq_true_eq] at h3
    exact h3.1
  constructor
  · unfold refund_payment
    dsimp only [Sess.init, Sess.emit]
    rw [hp]
    dsimp only
    rw [if_pos hnc]
    exact ⟨rfl, rfl⟩
  · unfold update_payment
    dsimp only [Sess.init]
    rw [hp]
    dsimp only
    refine ⟨rfl, ?_⟩
    have hq := get_payment_mapPayment db pid pid
      (fun q => { q with status := st }) (fun q => rfl) (fun q => rfl)
    rw [hp] at hq
    have hq2 : get_payment (mapPayment db pid fun q =>
        { q with status := st }) pid = some { p with status := st } := by
      rw [hq]
      simp [hpid]
    exact ⟨{ p with status := st }, hq2, rfl⟩

theorem c6_refund_only_from_completed_witness :
    ((refund_payment 1 (Sess.init dbOnePendingPayment)).1 =
        some .notRefundable ∧
      (refund_payment 1 (Sess.init dbOnePendingPayment)).2.committed =
        dbOnePendingPayment) ∧
    ((update_payment 1 none (some (.valid .refunded))
        (Sess.init dbOnePendingPayment)).1 = none ∧
      ∃ q, get_payment (update_payment 1 none (some (.valid .refunded))
        (Sess.init dbOnePendingPayment)).2.committed 1 = some q ∧
        q.status = PayStatus.refunded) :=
  c6_refund_only_from_completed 1 .refunded dbOnePendingPayment
    ⟨1, 5, .pending, false⟩ rfl (by decide)

/-- C8: on a seat table satisfying the uniqueness invariant,
check_seats_availability succeeds iff every non-deleted {on_hold, booked}
conflict at a requested (row, col) of the showtime is an expired hold; each
row is either untouched or — when it was an expired hold — released (status
`released`, soft-deleted: that is what `relSeat` says); after success no
active row remains at any requested key; and on failure the returned
conflict names a requested seat that has an unexpired active conflict. -/
theorem c8_check_seats_availability (now st : Nat) (req : List (Nat × Nat))
    (db : DB) (hu : SeatUniq db) :
    ((check_seats_availability now st req (Sess.init db)).1 = none ↔
      ∀ rc ∈ req, ∀ e ∈ db.seats, activeKey st rc.1 rc.2 e = true →
        e.is_hold_expired now = true) ∧
    List.Forall₂ (relSeat now) db.seats
      (check_seats_availability now st req (Sess.init db)).2.committed.seats ∧
    ((check_seats_availability now st req (Sess.init db)).1 = none →
      ∀ rc ∈ req, ((check_seats_availability now st req
        (Sess.init db)).2.committed.seats.countP (activeKey st rc.1 rc.2)) = 0) ∧
    (∀ rc, (check_seats_availability now st req (Sess.init db)).1 = some rc →
      rc ∈ req ∧ ∃ e ∈ db.seats, activeKey st rc.1 rc.2 e = true ∧
        e.is_hold_expired now = false) := by
  obtain ⟨P1, P2, P3, P4, P5, P6⟩ := check_spec now st req (Sess.init db)
    (check_seats_availability now st req (Sess.init db)).1
    (check_seats_availability now st req (Sess.init db)).2 rfl hu
  refine ⟨P4, ?_, ?_, P6⟩
  · rcases P3 with h0 | h0
    · rw [h0]
      exact forall₂_relSeat_refl now db.seats
    · rw [h0]
      exact P2
  · intro hc rc hrc
    rcases P3 with h0 | h0
    · rw [h0]
      have h1 := P5 hc rc hrc
      rw [h0] at h1
      exact h1
    · rw [h0]
      exact P5 hc rc hrc

theorem c8_check_seats_availability_witness :
    (((check_seats_availability 5 3 [(2, 4)]
        (Sess.init dbLinkedCompleted)).1 = none ↔
      ∀ rc ∈ [((2 : Nat), (4 : Nat))], ∀ e ∈ dbLinkedCompleted.seats,
        activeKey 3 rc.1 rc.2 e = true → e.is_hold_expired 5 = true) ∧
    List.Forall₂ (relSeat 5) dbLinkedCompleted.seats
      (check_seats_availability 5 3 [(2, 4)]
        (Sess.init dbLinkedCompleted)).2.committed.seats ∧
    ((check_seats_availability 5 3 [(2, 4)]
        (Sess.init dbLinkedCompleted)).1 = none →
      ∀ rc ∈ [((2 : Nat), (4 : Nat))], ((check_seats_availability 5 3 [(2, 4)]
        (Sess.init dbLinkedCompleted)).2.committed.seats.countP
          (activeKey 3 rc.1 rc.2)) = 0) ∧
    (∀ rc, (check_seats_availability 5 3 [(2, 4)]
        (Sess.init dbLinkedCompleted)).1 = some rc →
      rc ∈ [((2 : Nat), (4 : Nat))] ∧ ∃ e ∈ dbLinkedCompleted.seats,
        activeKey 3 rc.1 rc.2 e = true ∧ e.is_hold_expired 5 = false)) :=
  c8_check_seats_availability 5 3 [(2, 4)] dbLinkedCompleted
    (by
      intro a b c
      have h1 := List.countP_le_length (l := dbLinkedCompleted.seats)
        (p := activeKey a b c)
      simpa using h1)

theorem check_preserves_booked (now st : Nat) :
    ∀ (req : List (Nat × Nat)) (s : Sess) (t : BookedSeat),
      t.status = SeatStatus.booked → t ∈ s.draft.seats →
      t ∈ (check_seats_availability now st req s).2.draft.seats ∧
      (t ∈ s.committed.seats →
        t ∈ (check_seats_availability now st req s).2.committed.seats) := by
  intro req
  induction req with
  | nil =>
    intro s t hb ht
    exact ⟨ht, fun h => h⟩
  | cons rc rest ih =>
    obtain ⟨r, c⟩ := rc
    intro s t hb ht
    cases hf : s.draft.seats.find? (activeKey st r c) with
    | none =>
      rw [check_cons_none now st r c rest s hf]
      exact ih s t hb ht
    | some a =>
      by_cases hexp : a.is_hold_expired now = true
      · rw [check_cons_expired now st r c rest s a hf hexp]
        have haon : a.status = SeatStatus.on_hold := by
          simp only [BookedSeat.is_hold_expired, decide_eq_true_eq] at hexp
          exact hexp.1
        have hane : ∀ b, s.draft.seats.find? (activeKey st r c) = some b →
            t ≠ b := by
          intro b hfb hteq
          rw [hf] at hfb
          injection hfb with e
          rw [hteq, ← e, haon] at hb
          cases hb
        have ht1 : t ∈ releaseFirst (activeKey st r c) s.draft.seats :=
          releaseFirst_mem_of_ne _ _ t ht hane
        have hrec := ih (Sess.commit { s with draft := { s.draft with
          seats := releaseFirst (activeKey st r c) s.draft.seats } }) t hb ht1
        exact ⟨hrec.1, fun _ => hrec.2 ht1⟩
      · have hexpF : a.is_hold_expired now = false := by
          cases h0 : a.is_hold_expired now
          · rfl
          · exact absurd h0 hexp
        rw [check_cons_conflict now st r c rest s a hf hexpF]
        exact ⟨ht, fun h => h⟩

theorem cancelIfPending_preserves (t : BookedSeat) (d : DB) (bid : Nat)
    (ht : t ∈ d.seats)
    (hinv : ∀ b ∈ d.bookings, b.booking_id = t.booking_id →
      b.status ≠ BookingStatus.pending) :
    t ∈ (cancelIfPending d bid).seats ∧
    (∀ b ∈ (cancelIfPending d bid).bookings, b.booking_id = t.booking_id →
      b.status ≠ BookingStatus.pending) := by
  unfold cancelIfPending
  cases hfb : d.bookings.find? (fun b => decide (b.booking_id = bid)) with
  | none => exact ⟨ht, hinv⟩
  | some b =>
    dsimp only
    by_cases hp : b.status = BookingStatus.pending
    · rw [if_pos hp]
      have hbid : b.booking_id = bid := by
        have h3 := List.find?_some hfb
        simpa using h3
      by_cases heq : bid = t.booking_id
      · exact absurd hp (hinv b (List.mem_of_find?_eq_some hfb)
          (by rw [hbid, heq]))
      · constructor
        · unfold applyCancel
          dsimp only
          have hcond : ownedLive bid t = false := by
            simp only [ownedLive, decide_eq_false_iff_not]
            rintro ⟨h1, _⟩
            exact heq h1.symm
          have hfix : (fun u : BookedSeat =>
              if ownedLive bid u = true then u.release else u) t = t := by
            dsimp only
            rw [hcond]
            simp
          rw [← hfix]
          exact List.mem_map_of_mem _ ht
        · intro b' hb' hbid'
          unfold applyCancel at hb'
          dsimp only at hb'
          obtain ⟨b0, hb0, hgb0⟩ := List.mem_map.mp hb'
          by_cases hid : b0.booking_id = bid
          · rw [← hgb0]
            dsimp only
            rw [if_pos hid]
            intro hx
            cases hx
          · rw [← hgb0]
            dsimp only
            rw [if_neg hid]
            refine hinv b0 hb0 ?_
            rw [← hgb0] at hbid'
            dsimp only at hbid'
            rw [if_neg hid] at hbid'
            exact hbid'
    · rw [if_neg hp]
      exact ⟨ht, hinv⟩

theorem foldl_cancelIfPending_preserves (t : BookedSeat) :
    ∀ (bids : List Nat) (d : DB), t ∈ d.seats →
      (∀ b ∈ d.bookings, b.booking_id = t.booking_id →
        b.status ≠ BookingStatus.pending) →
      t ∈ (bids.foldl cancelIfPending d).seats := by
  intro bids
  induction bids with
  | nil => intro d ht _; exact ht
  | cons bid bids ih =>
    intro d ht hinv
    obtain ⟨h1, h2⟩ := cancelIfPending_preserves t d bid ht hinv
    exact ih (cancelIfPending d bid) h1 h2

/-- C9: once a seat is `booked` its hold expiry is irrelevant: it is never
expired (`is_hold_expired` is false at every time, even though confirm sets
`hold_expiry_time` to the confirmation time); check_seats_availability never
releases it; get_booked_seats lists it and leaves it untouched; and
release_expired_holds leaves it untouched whenever its owning booking is not
`pending` (its own expiry never selects it — only the cancellation cascade of
a still-pending owner could touch it). -/
theorem c9_booked_expiry_irrelevant (now st : Nat) (req : List (Nat × Nat))
    (db : DB) (t : BookedSeat) (hb : t.status = SeatStatus.booked) :
    t.is_hold_expired now = false ∧
    (t ∈ db.seats →
      t ∈ (check_seats_availability now st req (Sess.init db)).2.committed.seats) ∧
    (t ∈ db.seats → t.showtime_id = st → t.is_deleted = false →
      t ∈ (get_booked_seats now st (Sess.init db)).1 ∧
      t ∈ (get_booked_seats now st (Sess.init db)).2.committed.seats) ∧
    (t ∈ db.seats →
      (∀ b ∈ db.bookings, b.booking_id = t.booking_id →
        b.status ≠ BookingStatus.pending) →
      t ∈ (release_expired_holds now (Sess.init db)).2.committed.seats) := by
  have hexp : t.is_hold_expired now = false := by
    simp [BookedSeat.is_hold_expired, hb]
  refine ⟨hexp, ?_, ?_, ?_⟩
  · intro ht
    exact (check_preserves_booked now st req (Sess.init db) t hb ht).2 ht
  · intro ht hshow hnd
    unfold get_booked_seats
    dsimp only [Sess.init]
    have hcand : decide (t.showtime_id = st ∧ t.is_deleted = false ∧
        (t.status = SeatStatus.on_hold ∨ t.status = SeatStatus.booked)) = true := by
      simp [hshow, hnd, hb]
    constructor
    · refine List.mem_filter.mpr ⟨List.mem_filter.mpr ⟨ht, hcand⟩, ?_⟩
      simp [hexp]
    · have hfix : (fun u : BookedSeat =>
        if (decide (u.showtime_id = st ∧ u.is_deleted = false ∧
            (u.status = SeatStatus.on_hold ∨ u.status = SeatStatus.booked)) &&
            u.is_hold_expired now) = true
        then u.release else u) t = t := by
        dsimp only
        rw [hexp]
        simp
      by_cases hany : (db.seats.filter fun u =>
          decide (u.showtime_id = st ∧ u.is_deleted = false ∧
            (u.status = SeatStatus.on_hold ∨ u.status = SeatStatus.booked))).any
            (fun u => u.is_hold_expired now) = true
      · rw [if_pos hany]
        rw [← hfix]
        exact List.mem_map_of_mem _ ht
      · rw [if_neg hany]
        exact ht
  · intro ht hinv
    unfold release_expired_holds
    dsimp only [Sess.init]
    have hnexp : expiredHold now t = false := by
      simp [expiredHold, hb]
    have hfix : (fun u : BookedSeat =>
        if expiredHold now u = true then u.release else u) t = t := by
      dsimp only
      rw [hnexp]
      simp
    refine foldl_cancelIfPending_preserves t _ _ ?_ hinv
    rw [← hfix]
    exact List.mem_map_of_mem _ ht

/-- A confirmed booking whose booked seat's hold_expiry_time (9) is long past
at time 100 — exercising the irrelevance of expiry for booked seats. -/
def dbConfirmedBooked : DB :=
  ⟨[⟨1, 7, 3, some 1, .confirmed, false⟩],
   [⟨1, 1, 3, 2, 4, .booked, some 9, false⟩],
   [⟨1, 5, .completed, false⟩]⟩

theorem c9_booked_expiry_irrelevant_witness :
    (⟨1, 1, 3, 2, 4, .booked, some 9, false⟩ : BookedSeat).is_hold_expired 100
      = false ∧
    ((⟨1, 1, 3, 2, 4, .booked, some 9, false⟩ : BookedSeat) ∈
        dbConfirmedBooked.seats →
      (⟨1, 1, 3, 2, 4, .booked, some 9, false⟩ : BookedSeat) ∈
        (check_seats_availability 100 3 [(2, 4)]
          (Sess.init dbConfirmedBooked)).2.committed.seats) ∧
    ((⟨1, 1, 3, 2, 4, .booked, some 9, false⟩ : BookedSeat) ∈
        dbConfirmedBooked.seats →
      (⟨1, 1, 3, 2, 4, .booked, some 9, false⟩ : BookedSeat).showtime_id = 3 →
      (⟨1, 1, 3, 2, 4, .booked, some 9, false⟩ : BookedSeat).is_deleted = false →
      (⟨1, 1, 3, 2, 4, .booked, some 9, false⟩ : BookedSeat) ∈
        (get_booked_seats 100 3 (Sess.init dbConfirmedBooked)).1 ∧
      (⟨1, 1, 3, 2, 4, .booked, some 9, false⟩ : BookedSeat) ∈
        (get_booked_seats 100 3 (Sess.init dbConfirmedBooked)).2.committed.seats) ∧
    ((⟨1, 1, 3, 2, 4, .booked, some 9, false⟩ : BookedSeat) ∈
        dbConfirmedBooked.seats →
      (∀ b ∈ dbConfirmedBooked.bookings,
        b.booking_id = (⟨1, 1, 3, 2, 4, .booked, some 9, false⟩ :
          BookedSeat).booking_id → b.status ≠ BookingStatus.pending) →
      (⟨1, 1, 3, 2, 4, .booked, some 9, false⟩ : BookedSeat) ∈
        (release_expired_holds 100 (Sess.init dbConfirmedBooked)).2.committed.seats) :=
  c9_booked_expiry_irrelevant 100 3 [(2, 4)] dbConfirmedBooked
    ⟨1, 1, 3, 2, 4, .booked, some 9, false⟩ rfl

end BookingSvc
